import Mathlib

/-!
# Verification of the TinTown impact-bridge core

Shallow embedding of the TinTown repository's event-decoding, detection and
correlation code, together with proofs of the specification claims about it.

Modelling conventions, used throughout:
* Python `bytes` become `List Nat` (each entry is one byte value).
* Python `float` quantities (amplitudes, magnitudes, confidences, scale
  factors) become `ℚ`; the decimal constants of the source are embedded as
  the exact rationals they denote.
* `datetime` timestamps become integer milliseconds (`Int`); the source's
  `(b - a).total_seconds() * 1000` is then the exact integer difference, and
  Python's `int(...)` truncation on it is the identity.
* Monotonic nanosecond timestamps (`time.monotonic_ns`) stay `Int`
  nanoseconds.
* Fallible Python functions returning `None` become `Option`-valued
  functions.
-/

namespace TinTown

/-! ## AMG timer frame decoder (`src/impact_bridge/ble/amg_parse.py`) -/

/-- Shot states from the AMG timer (`class ShotState(IntEnum)`): the source
enumeration has exactly the three members ACTIVE = 3, START = 5, STOPPED = 8
and no "unknown" variant. -/
inductive ShotState where
  | ACTIVE
  | START
  | STOPPED
deriving DecidableEq, Repr

/-- `ShotState(code)` lookup: succeeds exactly on the three known codes,
raises `ValueError` (here: `none`) otherwise. -/
def shotStateOfCode (code : Nat) : Option ShotState :=
  if code = 3 then some .ACTIVE
  else if code = 5 then some .START
  else if code = 8 then some .STOPPED
  else none

/-- `convert_time_bytes`: big-endian 16-bit value divided by 100.0 to get
seconds.  The source's `if byte2 < 0` branch (a leftover from the Java
implementation it was ported from) is kept; on byte values (naturals) it
never fires. -/
def convert_time_bytes (byte1 byte2 : Nat) : ℚ :=
  let value : Nat := (byte1 <<< 8) ||| byte2
  let value := if byte2 < 0 then value + 256 else value
  (value : ℚ) / 100

/-- Result record of `parse_amg_timer_data`.  The source returns a dict; the
purely presentational entries (`event_type`, `event_detail`, `raw_hex`, the
state's `.name` string) are not modelled — every other entry is a field
here. -/
structure AmgFrame where
  type_id : Nat
  shot_state : ShotState
  shot_state_raw : Nat
  current_shot : Nat
  total_shots : Nat
  current_time : ℚ
  split_time : ℚ
  first_shot_time : ℚ
  second_shot_time : ℚ
  current_round : Nat
deriving DecidableEq, Repr

/-- `parse_amg_timer_data`: rejects inputs shorter than 14 bytes with `None`,
otherwise decodes the frame.  An unrecognized shot-state byte takes the
source's `except ValueError` branch, which assigns `ShotState.ACTIVE`
(`# Default`). -/
def parse_amg_timer_data (data : List Nat) : Option AmgFrame :=
  if data.length < 14 then
    none
  else
    let type_id := data.getD 0 0
    let shot_state_raw := data.getD 1 0
    let shot_state :=
      match shotStateOfCode shot_state_raw with
      | some s => s
      | none => ShotState.ACTIVE  -- `except ValueError: shot_state = ShotState.ACTIVE  # Default`
    let current_shot := data.getD 2 0
    let total_shots := data.getD 3 0
    let current_time := convert_time_bytes (data.getD 4 0) (data.getD 5 0)
    let split_time := convert_time_bytes (data.getD 6 0) (data.getD 7 0)
    let first_shot_time := convert_time_bytes (data.getD 8 0) (data.getD 9 0)
    let second_shot_time := convert_time_bytes (data.getD 10 0) (data.getD 11 0)
    let current_round := ((data.getD 12 0) <<< 8) ||| (data.getD 13 0)
    some {
      type_id := type_id
      shot_state := shot_state
      shot_state_raw := shot_state_raw
      current_shot := current_shot
      total_shots := total_shots
      current_time := current_time
      split_time := split_time
      first_shot_time := first_shot_time
      second_shot_time := second_shot_time
      current_round := current_round
    }

/-! ## Timing correlator data model (`src/impact_bridge/timing_calibration.py`) -/

/-- Calibration parameters for shot-impact correlation (`TimingCalibration`). -/
structure TimingCalibration where
  expected_delay_ms : Int := 526
  correlation_window_ms : Int := 1520
  delay_tolerance_ms : Int := 663
  minimum_magnitude : ℚ := 150
  learning_rate : ℚ := 1/10
  sample_count : Int := 6
deriving DecidableEq, Repr

/-- Shot event from the AMG timer (`ShotEvent`); timestamps in milliseconds. -/
structure ShotEvent where
  timestamp : Int
  shot_number : Int
  device_id : String
deriving DecidableEq, Repr

/-- Impact event from the BT50 sensor (`ImpactEvent` of the correlator). -/
structure ImpactEvent where
  timestamp : Int
  magnitude : ℚ
  device_id : String
  raw_value : ℚ
deriving DecidableEq, Repr

/-- Correlated shot-impact pair (`CorrelatedPair`). -/
structure CorrelatedPair where
  shot : ShotEvent
  impact : ImpactEvent
  delay_ms : Int
  confidence : ℚ
deriving DecidableEq, Repr

/-- `CorrelatedPair.is_valid`: the pair meets the calibration criteria. -/
def CorrelatedPair.is_valid (p : CorrelatedPair) (cal : TimingCalibration) : Bool :=
  0 ≤ p.delay_ms ∧ p.delay_ms ≤ cal.correlation_window_ms ∧
    cal.minimum_magnitude ≤ p.impact.magnitude ∧
    |p.delay_ms - cal.expected_delay_ms| ≤ cal.delay_tolerance_ms

/-- `RealTimeTimingCalibrator._calculate_confidence`: confidence from the
distance of the observed delay to the expected delay.  (With
`delay_tolerance_ms = 0` and a nonzero difference the source would divide by
zero; `ℚ` division is total here, and the claims assume a positive
tolerance.) -/
def calculate_confidence (cal : TimingCalibration) (delay_ms : Int) : ℚ :=
  let delay_difference : Int := |delay_ms - cal.expected_delay_ms|
  let max_difference : Int := cal.delay_tolerance_ms
  if delay_difference = 0 then 1
  else if delay_difference ≤ max_difference then
    1 - ((delay_difference : ℚ) / (max_difference : ℚ)) * (1/2)
  else
    max 0 (1/2 - ((delay_difference : ℚ) - (max_difference : ℚ)) / (max_difference : ℚ))

/-! ## Theorems: AMG decoder claims -/

/-- **C4.** Every input shorter than 14 bytes is rejected with the explicit
"too short" outcome (`None`): no frame value, no partially decoded fields,
and — the embedding being a total function — no exception. -/
theorem amg_short_input_rejected (data : List Nat) (h : data.length < 14) :
    parse_amg_timer_data data = none := by
  unfold parse_amg_timer_data
  simp [h]

/-- Witness for `amg_short_input_rejected` at a concrete 3-byte input. -/
theorem amg_short_input_rejected_witness :
    ([1, 2, 3] : List Nat).length < 14 ∧ parse_amg_timer_data [1, 2, 3] = none :=
  ⟨by decide, amg_short_input_rejected [1, 2, 3] (by decide)⟩

/-- **C2 (code bug exhibit).** A well-formed 14-byte frame whose shot-state
byte is the unknown code 7 decodes to `shot_state = ACTIVE`: the source's
`except ValueError` branch aliases every unrecognized code to the known
`ACTIVE` state instead of an explicit unknown variant (the decoder's
`ShotState` enumeration has no such variant at all).  The raw code survives
only in the separate `shot_state_raw` field. -/
theorem amg_unknown_state_aliases_to_active :
    (parse_amg_timer_data ([1, 7, 2, 3] ++ List.replicate 10 0)).map AmgFrame.shot_state
        = some ShotState.ACTIVE ∧
    (parse_amg_timer_data ([1, 7, 2, 3] ++ List.replicate 10 0)).map AmgFrame.shot_state_raw
        = some 7 ∧
    shotStateOfCode 7 = none :=
  ⟨rfl, rfl, rfl⟩

/-! ## Theorems: correlation confidence (C8) -/

/-- **C8.** For a positive tolerance, the confidence reported for a delay at
deviation `d = |delay_ms − expected_delay_ms|` is the claimed piecewise-linear
function: exactly 1 at `d = 0`, decaying linearly as `1 − d/(2·tol)` on
`[0, tol]` (hence `1/2` at the tolerance boundary), and exactly 0 for
`d ≥ 2·tol`.  Accepted pairs always have `d ≤ tol`, so their confidence is
given by the linear branch. -/
theorem confidence_piecewise (cal : TimingCalibration) (delay_ms : Int)
    (d : Int) (hd : d = |delay_ms - cal.expected_delay_ms|)
    (htol : 0 < cal.delay_tolerance_ms) :
    (d ≤ cal.delay_tolerance_ms →
      calculate_confidence cal delay_ms
        = 1 - (d : ℚ) / (2 * (cal.delay_tolerance_ms : ℚ))) ∧
    (d = 0 → calculate_confidence cal delay_ms = 1) ∧
    (2 * cal.delay_tolerance_ms ≤ d → calculate_confidence cal delay_ms = 0) := by
  have htolQ : (0 : ℚ) < (cal.delay_tolerance_ms : ℚ) := by exact_mod_cast htol
  have htolQ' : (cal.delay_tolerance_ms : ℚ) ≠ 0 := ne_of_gt htolQ
  unfold calculate_confidence
  subst hd
  refine ⟨?_, ?_, ?_⟩
  · intro hle
    by_cases h0 : |delay_ms - cal.expected_delay_ms| = 0
    · rw [if_pos h0, h0]
      norm_num
    · rw [if_neg h0, if_pos hle]
      field_simp
      ring
  · intro h0
    simp [h0]
  · intro hge
    have hd0 : (0 : Int) ≤ |delay_ms - cal.expected_delay_ms| := abs_nonneg _
    have hne : ¬ (|delay_ms - cal.expected_delay_ms| = 0) := by omega
    have hgt : ¬ (|delay_ms - cal.expected_delay_ms| ≤ cal.delay_tolerance_ms) := by omega
    rw [if_neg hne, if_neg hgt]
    have hQ : (2 : ℚ) * (cal.delay_tolerance_ms : ℚ)
        ≤ ((|delay_ms - cal.expected_delay_ms| : Int) : ℚ) := by exact_mod_cast hge
    have hle0 : (1 : ℚ)/2 - (((|delay_ms - cal.expected_delay_ms| : Int) : ℚ)
        - (cal.delay_tolerance_ms : ℚ)) / (cal.delay_tolerance_ms : ℚ) ≤ 0 := by
      rw [sub_nonpos, le_div_iff₀ htolQ]
      nlinarith
    exact max_eq_left hle0

/-- Witness for `confidence_piecewise` at the default calibration: deviation
0 gives confidence 1, and deviation `2·663` gives confidence 0. -/
theorem confidence_piecewise_witness :
    calculate_confidence {} 526 = 1 ∧ calculate_confidence {} (526 + 1326) = 0 := by
  constructor
  · exact (confidence_piecewise {} 526 0 (by decide) (by decide)).2.1 rfl
  · exact (confidence_piecewise {} (526 + 1326) 1326 (by decide) (by decide)).2.2 (by decide)

/-! ## WTVB01 / BT50 vibration notification decoder
(`src/impact_bridge/ble/wtvb_parse.py`) -/

/-- `struct.unpack` of a little-endian signed 16-bit integer from two byte
values. -/
def int16_le (lo hi : Nat) : Int :=
  let v : Nat := lo + 256 * hi
  if 32768 ≤ v then (v : Int) - 65536 else (v : Int)

/-- The source's calibrated scale factor `0.000902`. -/
def wtvb_scale : ℚ := 902 / 1000000

/-- One decoded 0x55 0x61 sub-frame of a BT50 notification (an entry of the
source's `frames` list: scaled values, raw triplet, byte offset). -/
structure WtvbSample where
  vx : ℚ
  vy : ℚ
  vz : ℚ
  raw_vx : Int
  raw_vy : Int
  raw_vz : Int
  offset : Nat
deriving DecidableEq, Repr

/-- The scan loop of `parse_5561`: starting at index `i`, look for 0x55 0x61
(85, 97) frame headers while at least 32 bytes remain; on a header match read
the x/y/z int16 fields at sub-frame offsets 14, 16 and 26 and skip 32 bytes
ahead, otherwise advance one byte.  The source's inner `if i + 28 <= L`
guard (whose `else` is `break`) is kept verbatim. -/
def scan_5561 (payload : List Nat) (i : Nat) : List WtvbSample :=
  if h32 : i + 32 ≤ payload.length then
    if payload.getD i 0 = 85 ∧ payload.getD (i + 1) 0 = 97 then
      if i + 28 ≤ payload.length then
        let vx_raw := int16_le (payload.getD (i + 14) 0) (payload.getD (i + 15) 0)
        let vy_raw := int16_le (payload.getD (i + 16) 0) (payload.getD (i + 17) 0)
        let vz_raw := int16_le (payload.getD (i + 26) 0) (payload.getD (i + 27) 0)
        { vx := vx_raw * wtvb_scale
          vy := vy_raw * wtvb_scale
          vz := vz_raw * wtvb_scale
          raw_vx := vx_raw
          raw_vy := vy_raw
          raw_vz := vz_raw
          offset := i } :: scan_5561 payload (i + 32)
      else []
    else scan_5561 payload (i + 1)
  else []
termination_by payload.length - i
decreasing_by all_goals omega

/-- Summary dict returned by `parse_5561`: the sample list plus per-axis
averages. -/
structure WtvbResult where
  samples : List WtvbSample
  avg_vx : ℚ
  avg_vy : ℚ
  avg_vz : ℚ
deriving DecidableEq, Repr

/-- `parse_5561`: `None` on an empty or short payload, otherwise scan for
0x55 0x61 frames; `None` when no frame was found, else the samples and their
averages. -/
def parse_5561 (payload : List Nat) : Option WtvbResult :=
  if payload.length < 32 then none
  else
    let frames := scan_5561 payload 0
    if frames = [] then none
    else
      let n : ℚ := frames.length
      some { samples := frames
             avg_vx := (frames.map (·.vx)).sum / n
             avg_vy := (frames.map (·.vy)).sum / n
             avg_vz := (frames.map (·.vz)).sum / n }

/-- Every sample produced by the scan loop starting at any index lies fully
inside the payload: its offset satisfies `offset + 28 ≤ length` (indeed the
loop guard even gives `offset + 32 ≤ length`). -/
theorem scan_5561_offset_bound (payload : List Nat) (i : Nat) :
    ∀ s ∈ scan_5561 payload i, s.offset + 28 ≤ payload.length := by
  induction i using scan_5561.induct payload with
  | case1 i h32 hmark h28 ih =>
      intro s hs
      rw [scan_5561, dif_pos h32, if_pos hmark, if_pos h28] at hs
      rcases List.mem_cons.mp hs with rfl | hs
      · simpa using h28
      · exact ih s hs
  | case2 i h32 hmark h28 =>
      intro s hs
      rw [scan_5561, dif_pos h32, if_pos hmark, if_neg h28] at hs
      simp at hs
  | case3 i h32 hmark ih =>
      intro s hs
      rw [scan_5561, dif_pos h32, if_neg hmark] at hs
      exact ih s hs
  | case4 i h32 =>
      intro s hs
      rw [scan_5561, dif_neg h32] at hs
      simp at hs

/-- If no feasible position carries the 0x55 0x61 marker, the scan finds
nothing. -/
theorem scan_5561_no_marker (payload : List Nat)
    (h : ∀ j, j + 32 ≤ payload.length →
      ¬(payload.getD j 0 = 85 ∧ payload.getD (j + 1) 0 = 97)) :
    ∀ i, scan_5561 payload i = [] := by
  intro i
  induction i using scan_5561.induct payload with
  | case1 i h32 hmark h28 ih => exact absurd hmark (h i h32)
  | case2 i h32 hmark h28 => exact absurd hmark (h i h32)
  | case3 i h32 hmark ih =>
      rw [scan_5561, dif_pos h32, if_neg hmark]
      exact ih
  | case4 i h32 =>
      rw [scan_5561, dif_neg h32]

/-- **C9.** The vibration decoder never reads past the payload's end: every
returned sample's byte offset `o` satisfies `o + 28 ≤ length` (the decoder is
a total function, so it terminates on every input); a payload shorter than
one 32-byte sub-frame yields the empty (`none`) result; and a scan that finds
no 0x55 0x61 marker at any feasible position also yields the empty result
rather than an error. -/
theorem wtvb_parse_safe (payload : List Nat) :
    (∀ r, parse_5561 payload = some r →
      ∀ s ∈ r.samples, s.offset + 28 ≤ payload.length) ∧
    (payload.length < 32 → parse_5561 payload = none) ∧
    ((∀ j, j + 32 ≤ payload.length →
        ¬(payload.getD j 0 = 85 ∧ payload.getD (j + 1) 0 = 97)) →
      parse_5561 payload = none) := by
  refine ⟨?_, ?_, ?_⟩
  · intro r hr s hs
    unfold parse_5561 at hr
    by_cases hshort : payload.length < 32
    · simp [hshort] at hr
    · rw [if_neg hshort] at hr
      by_cases hempty : scan_5561 payload 0 = []
      · simp [hempty] at hr
      · rw [if_neg hempty] at hr
        simp only [Option.some.injEq] at hr
        subst hr
        exact scan_5561_offset_bound payload 0 s hs
  · intro hshort
    unfold parse_5561
    rw [if_pos hshort]
  · intro h
    unfold parse_5561
    by_cases hshort : payload.length < 32
    · rw [if_pos hshort]
    · rw [if_neg hshort, scan_5561_no_marker payload h 0]
      simp

/-- The result of decoding a 32-byte payload that starts with the 0x55 0x61
marker and is otherwise zero: one all-zero sample at offset 0. -/
def wtvbDemoResult : WtvbResult :=
  { samples := [{ vx := 0, vy := 0, vz := 0, raw_vx := 0, raw_vy := 0, raw_vz := 0, offset := 0 }]
    avg_vx := 0
    avg_vy := 0
    avg_vz := 0 }

/-- Concrete evaluation of the decoder on the marker-bearing demo payload. -/
theorem wtvb_demo_eval :
    parse_5561 (85 :: 97 :: List.replicate 30 0) = some wtvbDemoResult := by
  have hscan : scan_5561 (85 :: 97 :: List.replicate 30 0) 0
      = [{ vx := 0, vy := 0, vz := 0, raw_vx := 0, raw_vy := 0, raw_vz := 0, offset := 0 }] := by
    rw [scan_5561]
    norm_num [List.getD, int16_le]
    rw [scan_5561]
    norm_num
  rw [parse_5561]
  norm_num [hscan, wtvbDemoResult]

/-- Witness for `wtvb_parse_safe`: a 32-byte payload starting with the
marker decodes to one sample at offset 0 (with `0 + 28 ≤ 32`); a 2-byte
payload and a 32-byte all-zero payload both decode to `none`. -/
theorem wtvb_parse_safe_witness :
    (∀ s ∈ wtvbDemoResult.samples,
      s.offset + 28 ≤ (85 :: 97 :: List.replicate 30 0).length) ∧
    parse_5561 [85, 97] = none ∧
    parse_5561 (List.replicate 32 0) = none := by
  refine ⟨(wtvb_parse_safe _).1 wtvbDemoResult wtvb_demo_eval,
    (wtvb_parse_safe _).2.1 (by decide), ?_⟩
  refine (wtvb_parse_safe _).2.2 ?_
  intro j hj
  have hlen : (List.replicate 32 (0 : Nat)).length = 32 := by simp
  rw [hlen] at hj
  have hj0 : j = 0 := by omega
  subst hj0
  decide

/-! ## Enhanced onset impact detector
(`src/impact_bridge/enhanced_impact_detection.py`) -/

/-- Individual sensor sample with timestamp (`SamplePoint`); timestamps in
milliseconds. -/
structure SamplePoint where
  timestamp : Int
  raw_values : List Int
  corrected_values : List ℚ
  magnitude : ℚ
deriving DecidableEq, Repr, Inhabited

/-- Enhanced impact event with onset detection (`ImpactEvent` of
`enhanced_impact_detection.py`, called `EnhancedImpactEvent` in the spec). -/
structure EnhancedImpactEvent where
  onset_timestamp : Int
  peak_timestamp : Int
  onset_magnitude : ℚ
  peak_magnitude : ℚ
  duration_ms : ℚ
  sample_count : Nat
  confidence : ℚ
  onset_samples : List SamplePoint
  peak_samples : List SamplePoint
deriving DecidableEq, Repr, Inhabited

/-- State (and parameters) of `EnhancedImpactDetector`; field defaults are
the constructor defaults of the source. -/
structure EnhancedImpactDetector where
  threshold : ℚ := 150
  onset_threshold : ℚ := 30
  lookback_samples : Nat := 10
  minimum_duration_samples : Nat := 3
  sample_history : List SamplePoint := []
  max_history : Nat := 20
  in_impact : Bool := false
  current_impact_samples : List SamplePoint := []
  impact_start_index : Int := -1
deriving DecidableEq, Repr

/-- Python's `max(samples, key=lambda s: s.magnitude)` on a nonempty list
`head :: rest`: keeps the first element of maximal magnitude (a later
element replaces the current best only when strictly greater). -/
def maxByMagnitude (head : SamplePoint) (rest : List SamplePoint) : SamplePoint :=
  rest.foldl (fun best s => if best.magnitude < s.magnitude then s else best) head

/-- `EnhancedImpactDetector._calculate_confidence`. -/
def enhanced_confidence (det : EnhancedImpactDetector)
    (onset_sample peak_sample : SamplePoint) (sample_count : Nat) : ℚ :=
  let magnitude_ratio := peak_sample.magnitude / max onset_sample.magnitude 1
  let magnitude_confidence := min (magnitude_ratio / 5) 1
  let duration_confidence := min ((sample_count : ℚ) / 6) 1
  let strength_confidence := min (peak_sample.magnitude / (det.threshold * (3/2))) 1
  let confidence := magnitude_confidence * (4/10) + duration_confidence * (3/10)
      + strength_confidence * (3/10)
  min (max confidence 0) 1

/-- `EnhancedImpactDetector._end_impact_detection`.  At every call site the
current window already contains `end_sample` as its last element (appended by
`process_sample`), so the window is nonempty; the `[]` branch of the match
is unreachable from `process_sample` (on it the source's
`current_impact_samples[0]` would raise). -/
def end_impact_detection (det : EnhancedImpactDetector) (end_sample : SamplePoint) :
    EnhancedImpactDetector × Option EnhancedImpactEvent :=
  let det := { det with in_impact := false }
  if det.current_impact_samples.length < det.minimum_duration_samples then
    ({ det with current_impact_samples := [] }, none)
  else
    match det.current_impact_samples with
    | [] => ({ det with current_impact_samples := [] }, none)
    | onset_sample :: rest =>
      let peak_sample := maxByMagnitude onset_sample rest
      if peak_sample.magnitude < det.threshold then
        ({ det with current_impact_samples := [] }, none)
      else
        let duration_ms : ℚ := ((end_sample.timestamp - onset_sample.timestamp : Int) : ℚ)
        let impact : EnhancedImpactEvent :=
          { onset_timestamp := onset_sample.timestamp
            peak_timestamp := peak_sample.timestamp
            onset_magnitude := onset_sample.magnitude
            peak_magnitude := peak_sample.magnitude
            duration_ms := duration_ms
            sample_count := rest.length + 1
            confidence := enhanced_confidence det onset_sample peak_sample (rest.length + 1)
            onset_samples := (onset_sample :: rest).take 3
            peak_samples := onset_sample :: rest }
        ({ det with current_impact_samples := [], impact_start_index := -1 }, some impact)

/-- `EnhancedImpactDetector.process_sample`: maintain the bounded sample
history, open a window at the onset threshold, accumulate while in impact,
and close the window when the magnitude falls back below the onset
threshold. -/
def enhanced_process_sample (det : EnhancedImpactDetector) (sample : SamplePoint) :
    EnhancedImpactDetector × Option EnhancedImpactEvent :=
  let hist := det.sample_history ++ [sample]
  let hist := if det.max_history < hist.length then hist.tail else hist
  let det := { det with sample_history := hist }
  if det.in_impact then
    let det := { det with
      current_impact_samples := det.current_impact_samples ++ [sample] }
    if sample.magnitude < det.onset_threshold then
      end_impact_detection det sample
    else (det, none)
  else
    if det.onset_threshold ≤ sample.magnitude then
      -- `_start_impact_detection`
      ({ det with in_impact := true, current_impact_samples := [sample],
                  impact_start_index := (hist.length : Int) - 1 }, none)
    else (det, none)

/-- The first-maximum selection returns an element of the window. -/
theorem maxByMagnitude_mem (head : SamplePoint) (rest : List SamplePoint) :
    maxByMagnitude head rest ∈ head :: rest := by
  induction rest generalizing head with
  | nil => simp [maxByMagnitude]
  | cons x xs ih =>
      unfold maxByMagnitude at ih ⊢
      simp only [List.foldl_cons]
      by_cases hc : head.magnitude < x.magnitude
      · rw [if_pos hc]
        rcases List.mem_cons.mp (ih x) with h | h
        · rw [h]; simp
        · simp [h]
      · rw [if_neg hc]
        rcases List.mem_cons.mp (ih head) with h | h
        · simp [h]
        · simp [h]

/-- The first-maximum selection dominates the window's first sample. -/
theorem le_maxByMagnitude (head : SamplePoint) (rest : List SamplePoint) :
    head.magnitude ≤ (maxByMagnitude head rest).magnitude := by
  induction rest generalizing head with
  | nil => simp [maxByMagnitude]
  | cons x xs ih =>
      unfold maxByMagnitude at ih ⊢
      simp only [List.foldl_cons]
      by_cases hc : head.magnitude < x.magnitude
      · rw [if_pos hc]
        exact le_of_lt (lt_of_lt_of_le hc (ih x))
      · rw [if_neg hc]
        exact ih head

/-- **C7.** If the onset detector's tracked window closes (the new sample's
magnitude drops below `onset_threshold`) and no sample of the window — the
accumulated samples together with the closing sample — reaches
`peak_threshold` (the source's `threshold`), then no event is emitted,
regardless of the window's length. -/
theorem onset_below_peak_threshold_never_emits
    (det : EnhancedImpactDetector) (sample : SamplePoint)
    (himp : det.in_impact = true)
    (hclose : sample.magnitude < det.onset_threshold)
    (hmax : ∀ s ∈ det.current_impact_samples ++ [sample], s.magnitude < det.threshold) :
    (enhanced_process_sample det sample).2 = none := by
  unfold enhanced_process_sample
  simp only [himp, if_true, hclose, if_pos]
  unfold end_impact_detection
  set window := det.current_impact_samples ++ [sample] with hwin
  by_cases hlen : window.length < det.minimum_duration_samples
  · simp [hlen]
  · rw [if_neg hlen]
    match hw : window with
    | [] => simp
    | onset_sample :: rest =>
        have hpeak : (maxByMagnitude onset_sample rest).magnitude < det.threshold := by
          exact hmax _ (maxByMagnitude_mem onset_sample rest)
        simp [hpeak]

/-- Witness for `onset_below_peak_threshold_never_emits`: a window of
magnitudes 40, 35 closed by a magnitude-5 sample (all below the default
peak threshold 150) emits nothing. -/
theorem onset_below_peak_threshold_never_emits_witness :
    (enhanced_process_sample
      { in_impact := true
        current_impact_samples :=
          [{ timestamp := 0, raw_values := [], corrected_values := [], magnitude := 40 },
           { timestamp := 1, raw_values := [], corrected_values := [], magnitude := 35 }] }
      { timestamp := 2, raw_values := [], corrected_values := [], magnitude := 5 }).2 = none :=
  onset_below_peak_threshold_never_emits _ _ (by decide) (by decide) (by decide)

/-- Head of a `≤`-chained list of samples has the least timestamp. -/
theorem chain_head_timestamp_le (h : SamplePoint) (t : List SamplePoint)
    (hc : List.Chain' (fun a b => a.timestamp ≤ b.timestamp) (h :: t)) :
    ∀ y ∈ h :: t, h.timestamp ≤ y.timestamp := by
  induction t generalizing h with
  | nil =>
      intro y hy
      rw [List.mem_singleton] at hy
      rw [hy]
  | cons x xs ih =>
      intro y hy
      rw [List.chain'_cons] at hc
      rcases List.mem_cons.mp hy with rfl | hy
      · exact le_refl _
      · exact le_trans hc.1 (ih x hc.2 y hy)

/-- **C10.** Every emitted `EnhancedImpactEvent` has
`onset_magnitude ≤ peak_magnitude` (the peak is the maximum-magnitude sample
of a window whose first sample is the onset), and — provided the window's
timestamps are non-decreasing, as they are when the caller supplies
non-decreasing sample timestamps — `onset_timestamp ≤ peak_timestamp`. -/
theorem enhanced_event_invariants
    (det : EnhancedImpactDetector) (sample : SamplePoint) (ev : EnhancedImpactEvent)
    (hev : (enhanced_process_sample det sample).2 = some ev) :
    ev.onset_magnitude ≤ ev.peak_magnitude ∧
    (List.Chain' (fun a b => a.timestamp ≤ b.timestamp)
        (det.current_impact_samples ++ [sample]) →
      ev.onset_timestamp ≤ ev.peak_timestamp) := by
  simp only [enhanced_process_sample] at hev
  by_cases himp : det.in_impact
  · simp only [himp, if_true] at hev
    by_cases hclose : sample.magnitude < det.onset_threshold
    · rw [if_pos hclose] at hev
      simp only [end_impact_detection] at hev
      by_cases hlen : (det.current_impact_samples ++ [sample]).length
          < det.minimum_duration_samples
      · have hlen' : det.current_impact_samples.length + 1
            < det.minimum_duration_samples := by simpa using hlen
        simp [hlen'] at hev
      · simp only [hlen, if_false] at hev
        cases hw : det.current_impact_samples ++ [sample] with
        | nil => simp at hw
        | cons onset_sample rest =>
            simp only [hw] at hev
            by_cases hpeak : (maxByMagnitude onset_sample rest).magnitude < det.threshold
            · simp [hpeak] at hev
            · simp only [hpeak, if_false] at hev
              have hev' := Option.some.inj hev
              constructor
              · rw [← hev']
                exact le_maxByMagnitude onset_sample rest
              · intro hchain
                rw [← hev']
                exact chain_head_timestamp_le onset_sample rest hchain _
                  (maxByMagnitude_mem onset_sample rest)
    · rw [if_neg hclose] at hev
      simp at hev
  · simp only [himp, if_false] at hev
    by_cases hstart : det.onset_threshold ≤ sample.magnitude
    · simp [hstart] at hev
    · simp [hstart] at hev

/-- Concrete detector state used to witness `enhanced_event_invariants`:
in-impact with a two-sample window, peak threshold 20. -/
def enhancedDemoState : EnhancedImpactDetector :=
  { threshold := 20
    in_impact := true
    current_impact_samples :=
      [{ timestamp := 0, raw_values := [], corrected_values := [], magnitude := 30 },
       { timestamp := 1, raw_values := [], corrected_values := [], magnitude := 25 }] }

/-- The magnitude-5 sample that closes the demo window. -/
def enhancedDemoSample : SamplePoint :=
  { timestamp := 2, raw_values := [], corrected_values := [], magnitude := 5 }

/-- The event the demo window emits (computed by hand from the source's
formulas; `enhanced_demo_eval` checks it). -/
def enhancedDemoEvent : EnhancedImpactEvent :=
  { onset_timestamp := 0
    peak_timestamp := 0
    onset_magnitude := 30
    peak_magnitude := 30
    duration_ms := 2
    sample_count := 3
    confidence := 53/100
    onset_samples :=
      [{ timestamp := 0, raw_values := [], corrected_values := [], magnitude := 30 },
       { timestamp := 1, raw_values := [], corrected_values := [], magnitude := 25 },
       { timestamp := 2, raw_values := [], corrected_values := [], magnitude := 5 }]
    peak_samples :=
      [{ timestamp := 0, raw_values := [], corrected_values := [], magnitude := 30 },
       { timestamp := 1, raw_values := [], corrected_values := [], magnitude := 25 },
       { timestamp := 2, raw_values := [], corrected_values := [], magnitude := 5 }] }

/-- The demo window does emit `enhancedDemoEvent`. -/
theorem enhanced_demo_eval :
    (enhanced_process_sample enhancedDemoState enhancedDemoSample).2
      = some enhancedDemoEvent := by
  norm_num [enhanced_process_sample, end_impact_detection, maxByMagnitude,
    enhanced_confidence, enhancedDemoState, enhancedDemoSample, enhancedDemoEvent,
    min_def, max_def]

/-- Witness for `enhanced_event_invariants` at the demo window. -/
theorem enhanced_event_invariants_witness :
    enhancedDemoEvent.onset_magnitude ≤ enhancedDemoEvent.peak_magnitude ∧
    enhancedDemoEvent.onset_timestamp ≤ enhancedDemoEvent.peak_timestamp := by
  have h := enhanced_event_invariants enhancedDemoState enhancedDemoSample
    enhancedDemoEvent enhanced_demo_eval
  refine ⟨h.1, h.2 ?_⟩
  refine List.chain'_cons.mpr ⟨by norm_num [enhancedDemoState], ?_⟩
  refine List.chain'_cons.mpr ⟨by norm_num [enhancedDemoState, enhancedDemoSample], ?_⟩
  exact List.chain'_singleton _

/-! ## Envelope hit detector (`src/impact_bridge/detector.py`) -/

/-- Parameters for the envelope impact-detection algorithm
(`DetectorParams`). -/
structure DetectorParams where
  trigger_high : ℚ
  trigger_low : ℚ
  ring_min_ms : Int
  dead_time_ms : Int
  warmup_ms : Int
  baseline_min : ℚ
  min_amp : ℚ
deriving DecidableEq, Repr

/-- Detected impact event (`HitEvent`).  The source's `rms_amplitude` is
`(sum_squares / len) ** 0.5`; a square root is irrational in general, so the
field here stores its square (`sum_squares / len`), which is
order-isomorphic to it and untouched by every claim. -/
structure HitEvent where
  timestamp_ns : Int
  peak_amplitude : ℚ
  duration_ms : ℚ
  rms_amplitude_sq : ℚ
deriving DecidableEq, Repr

/-- Mutable state of a `HitDetector` instance, parameters included. -/
structure HitDetectorState where
  params : DetectorParams
  sensor_id : String
  triggered : Bool
  trigger_start_ns : Option Int
  last_hit_ns : Option Int
  warmup_end_ns : Int
  baseline_samples : List ℚ
  baseline : ℚ
  event_samples : List (Int × ℚ)
deriving DecidableEq, Repr

/-- `HitDetector.__init__`: `now_ns` is the `time.monotonic_ns()` value at
construction. -/
def initHitDetector (params : DetectorParams) (sensor_id : String) (now_ns : Int) :
    HitDetectorState :=
  { params := params
    sensor_id := sensor_id
    triggered := false
    trigger_start_ns := none
    last_hit_ns := none
    warmup_end_ns := now_ns + params.warmup_ms * 1000000
    baseline_samples := []
    baseline := params.baseline_min
    event_samples := [] }

/-- Append to a `deque(maxlen := maxlen)`: when full, the oldest (leftmost)
entry is dropped. -/
def dequeAppend (maxlen : Nat) (l : List ℚ) (a : ℚ) : List ℚ :=
  let l := l ++ [a]
  if maxlen < l.length then l.tail else l

/-- Python's `min(...)` over a nonempty list (`min(self._baseline_samples)`);
the `[]` case is unreachable at the call site (the deque holds ≥ 10
entries there). -/
def listMinQ : List ℚ → ℚ
  | [] => 0
  | x :: xs => xs.foldl min x

/-- `HitDetector._update_baseline`: append the sample, and once at least 10
samples are present use `max(min(recent), baseline_min)` as the baseline. -/
def updateBaseline (st : HitDetectorState) (amplitude : ℚ) : HitDetectorState :=
  let bs := dequeAppend 100 st.baseline_samples amplitude
  let st := { st with baseline_samples := bs }
  if 10 ≤ bs.length then
    { st with baseline := max (listMinQ bs) st.params.baseline_min }
  else st

/-- `HitDetector._create_hit_event` on the accumulated samples: peak scan
(`amplitude > peak_amp` keeps the first maximal sample; `peak_amp` starts at
0 so an all-nonpositive window reports peak 0 at the first timestamp), sum
of squares, and duration from first to last accumulated timestamp.  The `[]`
case (where the source raises `ValueError`) is unreachable: the function is
only called while triggered, with a nonempty window. -/
def create_hit_event (event_samples : List (Int × ℚ)) : HitEvent :=
  match event_samples with
  | [] => { timestamp_ns := 0, peak_amplitude := 0, duration_ms := 0, rms_amplitude_sq := 0 }
  | (t0, a0) :: _ =>
      let pk := event_samples.foldl
        (fun (p : ℚ × Int) s => if p.1 < s.2 then (s.2, s.1) else p) (0, t0)
      let sum_squares := event_samples.foldl (fun acc s => acc + s.2 * s.2) 0
      let start_ns := t0
      let end_ns := (event_samples.getLastD (t0, a0)).1
      { timestamp_ns := pk.2
        peak_amplitude := pk.1
        duration_ms := ((end_ns - start_ns : Int) : ℚ) / 1000000
        rms_amplitude_sq := sum_squares / event_samples.length }

/-- Python's `max(a for _, a in samples)` over a nonempty sample list. -/
def listMaxAmp : List (Int × ℚ) → ℚ
  | [] => 0
  | x :: xs => xs.foldl (fun m s => max m s.2) x.2

/-- `HitDetector.process_sample`: warmup feeding, baseline update, minimum
amplitude gate, dead-time gate, and the trigger/release state machine with
primary (hysteresis) release and fallback decay release.
The `trigger_start_ns = none` match arms are unreachable: the trigger start
is set whenever `triggered` holds. -/
def process_sample (st : HitDetectorState) (timestamp_ns : Int) (amplitude : ℚ) :
    HitDetectorState × Option HitEvent :=
  if timestamp_ns < st.warmup_end_ns then
    ({ st with baseline_samples := dequeAppend 100 st.baseline_samples amplitude }, none)
  else
    let st := updateBaseline st amplitude
    if amplitude < st.params.min_amp then (st, none)
    else
      let dead : Bool :=
        match st.last_hit_ns with
        | some last_hit => timestamp_ns - last_hit < st.params.dead_time_ms * 1000000
        | none => false
      if dead then (st, none)
      else
        let normalized_amp := max (amplitude - st.baseline) 0
        if st.triggered then
          let es := st.event_samples ++ [(timestamp_ns, amplitude)]
          let st := { st with event_samples := es }
          if normalized_amp ≤ st.params.trigger_low then
            match st.trigger_start_ns with
            | none => (st, none)
            | some t0 =>
                if st.params.ring_min_ms * 1000000 ≤ timestamp_ns - t0 then
                  ({ st with triggered := false, trigger_start_ns := none,
                             event_samples := [], last_hit_ns := some timestamp_ns },
                   some (create_hit_event es))
                else
                  ({ st with triggered := false, trigger_start_ns := none,
                             event_samples := [] }, none)
          else
            match st.trigger_start_ns with
            | none => (st, none)
            | some t0 =>
                if st.params.ring_min_ms * 1000000 ≤ timestamp_ns - t0 ∧ 3 ≤ es.length then
                  let peak_amp := listMaxAmp es
                  let prev_amp := (es.getD (es.length - 2) (0, 0)).2
                  let decayed_from_peak : Prop := 0 < peak_amp ∧ amplitude ≤ peak_amp * (6/10)
                  let rapid_drop : Prop := 0 < prev_amp ∧ amplitude ≤ prev_amp * (55/100)
                  if decayed_from_peak ∨ rapid_drop then
                    ({ st with triggered := false, trigger_start_ns := none,
                               event_samples := [], last_hit_ns := some timestamp_ns },
                     some (create_hit_event es))
                  else (st, none)
                else (st, none)
        else
          if st.params.trigger_high ≤ normalized_amp then
            ({ st with triggered := true, trigger_start_ns := some timestamp_ns,
                       event_samples := [(timestamp_ns, amplitude)] }, none)
          else (st, none)

/-- A run of the detector over a sample stream, collecting the emitted
events in order. -/
def runHitDetector (st : HitDetectorState) (samples : List (Int × ℚ)) :
    HitDetectorState × List HitEvent :=
  samples.foldl
    (fun acc s =>
      let r := process_sample acc.1 s.1 s.2
      (r.1, acc.2 ++ r.2.toList))
    (st, [])

/-- A run that records, for each emitted event, the pair
(trigger-start timestamp of its window, finalize timestamp): ghost
instrumentation of `runHitDetector` used to state the dead-time claim. -/
def runHitDetectorTimed (st : HitDetectorState) (samples : List (Int × ℚ)) :
    HitDetectorState × List (Int × Int) :=
  samples.foldl
    (fun acc s =>
      let r := process_sample acc.1 s.1 s.2
      match r.2 with
      | some _ => (r.1, acc.2 ++ [(acc.1.trigger_start_ns.getD 0, s.1)])
      | none => (r.1, acc.2))
    (st, [])

/-- `_update_baseline` touches only the baseline fields. -/
theorem updateBaseline_params (st : HitDetectorState) (a : ℚ) :
    (updateBaseline st a).params = st.params := by
  simp only [updateBaseline]; split <;> rfl

theorem updateBaseline_triggered (st : HitDetectorState) (a : ℚ) :
    (updateBaseline st a).triggered = st.triggered := by
  simp only [updateBaseline]; split <;> rfl

theorem updateBaseline_trigger_start (st : HitDetectorState) (a : ℚ) :
    (updateBaseline st a).trigger_start_ns = st.trigger_start_ns := by
  simp only [updateBaseline]; split <;> rfl

theorem updateBaseline_event_samples (st : HitDetectorState) (a : ℚ) :
    (updateBaseline st a).event_samples = st.event_samples := by
  simp only [updateBaseline]; split <;> rfl

theorem updateBaseline_last_hit (st : HitDetectorState) (a : ℚ) :
    (updateBaseline st a).last_hit_ns = st.last_hit_ns := by
  simp only [updateBaseline]; split <;> rfl

/-- Invariant of the hit detector: while triggered, the trigger-start
timestamp is set and is the timestamp of the first accumulated sample of
the window. -/
def HitInv (st : HitDetectorState) : Prop :=
  st.triggered = true →
    ∃ t0 a0 rest, st.trigger_start_ns = some t0 ∧ st.event_samples = (t0, a0) :: rest

/-- The duration of an event created from a window whose last sample is
`(ts, amp)` and whose first sample is `(t0, a0)`. -/
theorem create_hit_event_duration (t0 : Int) (a0 : ℚ) (mid : List (Int × ℚ))
    (ts : Int) (amp : ℚ) :
    (create_hit_event ((t0, a0) :: (mid ++ [(ts, amp)]))).duration_ms
      = ((ts - t0 : Int) : ℚ) / 1000000 := by
  unfold create_hit_event
  have hlast : (((t0, a0) :: (mid ++ [(ts, amp)])).getLastD (t0, a0)) = (ts, amp) := by
    rw [← List.cons_append]
    exact List.getLastD_concat _ _ _
  rw [List.getLastD_eq_getLast?] at hlast
  simp [hlast]

theorem ring_le_duration {ring t0 ts : Int} (h : ring * 1000000 ≤ ts - t0) :
    (ring : ℚ) ≤ ((ts - t0 : Int) : ℚ) / 1000000 := by
  rw [le_div_iff₀ (by norm_num : (0:ℚ) < 1000000)]
  exact_mod_cast h

/-- One step of the detector: parameters are untouched, the window invariant
is preserved, and any emitted event's duration is at least `ring_min_ms`. -/
theorem process_sample_step (st : HitDetectorState) (ts : Int) (amp : ℚ)
    (st' : HitDetectorState) (evo : Option HitEvent)
    (heq : process_sample st ts amp = (st', evo)) (hinv : HitInv st) :
    st'.params = st.params ∧ HitInv st' ∧
    ∀ ev, evo = some ev → (st.params.ring_min_ms : ℚ) ≤ ev.duration_ms := by
  simp only [process_sample] at heq
  split at heq
  · -- warmup
    injection heq with h1 h2
    subst h1; subst h2
    exact ⟨rfl, fun h => hinv h, by simp⟩
  · split at heq
    · -- below min_amp
      injection heq with h1 h2
      subst h1; subst h2
      refine ⟨updateBaseline_params st amp, ?_, by simp⟩
      intro h
      rw [updateBaseline_triggered] at h
      obtain ⟨t0, a0, rest, h1, h2⟩ := hinv h
      exact ⟨t0, a0, rest, by rw [updateBaseline_trigger_start]; exact h1,
        by rw [updateBaseline_event_samples]; exact h2⟩
    · split at heq
      · -- dead time
        injection heq with h1 h2
        subst h1; subst h2
        refine ⟨updateBaseline_params st amp, ?_, by simp⟩
        intro h
        rw [updateBaseline_triggered] at h
        obtain ⟨t0, a0, rest, h1, h2⟩ := hinv h
        exact ⟨t0, a0, rest, by rw [updateBaseline_trigger_start]; exact h1,
          by rw [updateBaseline_event_samples]; exact h2⟩
      · rename_i htrig'
        split at heq
        · -- triggered branch
          rename_i htrig
          -- the pre-step state satisfies the invariant, giving the window shape
          have htr : st.triggered = true := by
            rw [← updateBaseline_triggered st amp]; exact htrig
          obtain ⟨t0, a0, rest, hstart, hes⟩ := hinv htr
          have hstart1 : (updateBaseline st amp).trigger_start_ns = some t0 := by
            rw [updateBaseline_trigger_start]; exact hstart
          have hes1 : (updateBaseline st amp).event_samples ++ [(ts, amp)]
              = (t0, a0) :: (rest ++ [(ts, amp)]) := by
            rw [updateBaseline_event_samples, hes, List.cons_append]
          split at heq
          · -- primary release (normalized ≤ trigger_low)
            split at heq
            · -- trigger_start none: contradiction with hstart1
              rename_i hnone
              rw [hstart1] at hnone
              cases hnone
            · rename_i t0' hsome
              rw [hstart1] at hsome
              injection hsome with ht0
              subst ht0
              split at heq
              · -- emit
                rename_i hring
                injection heq with h1 h2
                subst h1; subst h2
                refine ⟨updateBaseline_params st amp, ?_, ?_⟩
                · intro h; cases h
                · intro ev hev
                  injection hev with hev
                  subst hev
                  rw [hes1, create_hit_event_duration]
                  rw [updateBaseline_params] at hring
                  exact ring_le_duration hring
              · -- too short: discard
                injection heq with h1 h2
                subst h1; subst h2
                refine ⟨updateBaseline_params st amp, ?_, ?_⟩
                · intro h; cases h
                · simp
          · -- not released by hysteresis: fallback path
            split at heq
            · rename_i hnone
              rw [hstart1] at hnone
              cases hnone
            · rename_i t0' hsome
              rw [hstart1] at hsome
              injection hsome with ht0
              subst ht0
              split at heq
              · rename_i hcond
                split at heq
                · -- fallback decay release: emit
                  injection heq with h1 h2
                  subst h1; subst h2
                  refine ⟨updateBaseline_params st amp, ?_, ?_⟩
                  · intro h; cases h
                  · intro ev hev
                    injection hev with hev
                    subst hev
                    rw [hes1, create_hit_event_duration]
                    rw [updateBaseline_params] at hcond
                    exact ring_le_duration hcond.1
                · -- no decay: keep accumulating
                  injection heq with h1 h2
                  subst h1; subst h2
                  refine ⟨updateBaseline_params st amp, ?_, by simp⟩
                  intro _
                  exact ⟨t0, a0, rest ++ [(ts, amp)], hstart1, hes1⟩
              · injection heq with h1 h2
                subst h1; subst h2
                refine ⟨updateBaseline_params st amp, ?_, by simp⟩
                intro _
                exact ⟨t0, a0, rest ++ [(ts, amp)], hstart1, hes1⟩
        · -- not triggered
          split at heq
          · -- new trigger starts
            injection heq with h1 h2
            subst h1; subst h2
            exact ⟨updateBaseline_params st amp,
              fun _ => ⟨ts, amp, [], rfl, rfl⟩, by simp⟩
          · injection heq with h1 h2
            subst h1; subst h2
            refine ⟨updateBaseline_params st amp, ?_, by simp⟩
            intro h
            rw [updateBaseline_triggered] at h
            obtain ⟨t0, a0, rest, h1, h2⟩ := hinv h
            exact ⟨t0, a0, rest, by rw [updateBaseline_trigger_start]; exact h1,
              by rw [updateBaseline_event_samples]; exact h2⟩

/-- Folding the detector step over a sample stream keeps every collected
event's duration at or above `ring_min_ms`. -/
theorem runHitDetector_aux (params : DetectorParams) (samples : List (Int × ℚ)) :
    ∀ (st : HitDetectorState) (acc : List HitEvent),
      st.params = params → HitInv st →
      (∀ ev ∈ acc, (params.ring_min_ms : ℚ) ≤ ev.duration_ms) →
      ∀ ev ∈ (samples.foldl
          (fun acc s =>
            let r := process_sample acc.1 s.1 s.2
            (r.1, acc.2 ++ r.2.toList)) (st, acc)).2,
        (params.ring_min_ms : ℚ) ≤ ev.duration_ms := by
  induction samples with
  | nil =>
      intro st acc hp hinv hacc ev hev
      exact hacc ev (by simpa using hev)
  | cons s rest ih =>
      intro st acc hp hinv hacc
      simp only [List.foldl_cons]
      have hstep := process_sample_step st s.1 s.2
        (process_sample st s.1 s.2).1 (process_sample st s.1 s.2).2 rfl hinv
      apply ih
      · rw [hstep.1, hp]
      · exact hstep.2.1
      · intro ev hev
        rcases List.mem_append.mp hev with h | h
        · exact hacc ev h
        · have hsome : (process_sample st s.1 s.2).2 = some ev := by
            cases ho : (process_sample st s.1 s.2).2 with
            | none => rw [ho] at h; cases h
            | some e => rw [ho] at h; simp at h; rw [h]
          have := hstep.2.2 ev hsome
          rw [hp] at this
          exact this

/-- **C5.** First: every `HitEvent` emitted over any run of the envelope hit
detector has `duration_ms ≥ ring_min_ms` — `duration_ms` being the last
minus first accumulated sample timestamp of the trigger window (see
`create_hit_event`).  Second: a primary release condition
(`normalized ≤ trigger_low`) reached before `ring_min_ms` has elapsed since
trigger start discards the trigger (state untriggered, window cleared) and
emits nothing. -/
theorem envelope_ring_min_enforced (params : DetectorParams) (sensor_id : String)
    (now_ns : Int) (samples : List (Int × ℚ)) (st : HitDetectorState)
    (ts t0 : Int) (amp : ℚ) :
    (∀ ev ∈ (runHitDetector (initHitDetector params sensor_id now_ns) samples).2,
      (params.ring_min_ms : ℚ) ≤ ev.duration_ms) ∧
    (¬ ts < st.warmup_end_ns →
     ¬ amp < st.params.min_amp →
     (∀ f, st.last_hit_ns = some f → st.params.dead_time_ms * 1000000 ≤ ts - f) →
     st.triggered = true →
     max (amp - (updateBaseline st amp).baseline) 0 ≤ st.params.trigger_low →
     st.trigger_start_ns = some t0 →
     ts - t0 < st.params.ring_min_ms * 1000000 →
     (process_sample st ts amp).1.triggered = false ∧
     (process_sample st ts amp).1.event_samples = [] ∧
     (process_sample st ts amp).2 = none) := by
  constructor
  · intro ev hev
    refine runHitDetector_aux params samples (initHitDetector params sensor_id now_ns)
      [] rfl ?_ (by intro e he; cases he) ev hev
    intro h
    simp [initHitDetector] at h
  · intro hwu hmin hdead htrig hrel hstart hshort
    have hmin' : ¬ amp < (updateBaseline st amp).params.min_amp := by
      rw [updateBaseline_params]; exact hmin
    have hdead' : (match (updateBaseline st amp).last_hit_ns with
        | some last_hit =>
            decide (ts - last_hit < (updateBaseline st amp).params.dead_time_ms * 1000000)
        | none => false) = false := by
      rw [updateBaseline_last_hit, updateBaseline_params]
      cases hl : st.last_hit_ns with
      | none => rfl
      | some f =>
          have := hdead f hl
          simp only [decide_eq_false_iff_not]
          omega
    have htrig' : (updateBaseline st amp).triggered = true := by
      rw [updateBaseline_triggered]; exact htrig
    have hrel' : max (amp - (updateBaseline st amp).baseline) 0
        ≤ (updateBaseline st amp).params.trigger_low := by
      rw [updateBaseline_params]; exact hrel
    have hstart' : (updateBaseline st amp).trigger_start_ns = some t0 := by
      rw [updateBaseline_trigger_start]; exact hstart
    have hshort' : ¬ (updateBaseline st amp).params.ring_min_ms * 1000000
        ≤ ts - t0 := by
      rw [updateBaseline_params]; omega
    simp only [process_sample, if_neg hwu, if_neg hmin', hdead', Bool.false_eq_true,
      if_false, htrig', if_true, hstart', if_pos hrel', if_neg hshort']
    exact ⟨trivial, trivial, trivial⟩

/-- Demo detector parameters for the witnesses: trigger at normalized 1,
release at 0, ring-min 1 ms, dead time 1 ms, no warmup, zero floors. -/
def hitDemoParams : DetectorParams :=
  { trigger_high := 1, trigger_low := 0, ring_min_ms := 1, dead_time_ms := 1,
    warmup_ms := 0, baseline_min := 0, min_amp := 0 }

/-- The event the demo run emits: peak 5 at the trigger sample, 1 ms window. -/
def hitDemoEvent : HitEvent :=
  { timestamp_ns := 0, peak_amplitude := 5, duration_ms := 1, rms_amplitude_sq := 25/2 }

/-- Concrete run: a trigger sample at t = 0 and a release sample 1 ms later
produce exactly `hitDemoEvent`. -/
theorem hit_demo_eval :
    (runHitDetector (initHitDetector hitDemoParams "plate" 0)
      [(0, 5), (1000000, 0)]).2 = [hitDemoEvent] := by
  norm_num [runHitDetector, initHitDetector, process_sample, updateBaseline,
    dequeAppend, listMinQ, create_hit_event, hitDemoParams, hitDemoEvent,
    List.foldl, List.getLastD, max_def, min_def]

/-- A triggered demo state whose window started at t = 0. -/
def hitShortState : HitDetectorState :=
  { params := hitDemoParams, sensor_id := "plate", triggered := true,
    trigger_start_ns := some 0, last_hit_ns := none, warmup_end_ns := 0,
    baseline_samples := [], baseline := 0, event_samples := [(0, 5)] }

/-- Witness for `envelope_ring_min_enforced`: the demo run's event lasts at
least `ring_min_ms`, and a primary release 0.5 ms into the window discards
the trigger without an event. -/
theorem envelope_ring_min_enforced_witness :
    ((hitDemoParams.ring_min_ms : ℚ) ≤ hitDemoEvent.duration_ms) ∧
    ((process_sample hitShortState 500000 0).1.triggered = false ∧
     (process_sample hitShortState 500000 0).1.event_samples = [] ∧
     (process_sample hitShortState 500000 0).2 = none) := by
  constructor
  · exact (envelope_ring_min_enforced hitDemoParams "plate" 0 [(0, 5), (1000000, 0)]
      hitShortState 500000 0 0).1 hitDemoEvent
      (by rw [hit_demo_eval]; exact List.mem_singleton.mpr rfl)
  · exact (envelope_ring_min_enforced hitDemoParams "plate" 0 [(0, 5), (1000000, 0)]
      hitShortState 500000 0 0).2
      (by norm_num [hitShortState])
      (by norm_num [hitShortState, hitDemoParams])
      (by intro f hf; simp [hitShortState] at hf)
      (by rfl)
      (by norm_num [hitShortState, hitDemoParams, updateBaseline, dequeAppend,
        listMinQ, max_def, min_def])
      (by rfl)
      (by norm_num [hitShortState, hitDemoParams])

/-- Dead-time invariant: while triggered, the trigger start lies at least
`dead_time_ms` after the last finalized event (when one exists). -/
def DeadTrig (st : HitDetectorState) : Prop :=
  st.triggered = true → ∀ f, st.last_hit_ns = some f →
    ∃ t0, st.trigger_start_ns = some t0 ∧
      st.params.dead_time_ms * 1000000 ≤ t0 - f

/-- One step of the detector, dead-time bookkeeping: parameters untouched,
the dead-time invariant is preserved, a silent step keeps `last_hit_ns`, and
an emitting step happens from a triggered state with a set trigger start,
finalizes at the sample's timestamp, and untriggers. -/
theorem process_sample_dead (st : HitDetectorState) (ts : Int) (amp : ℚ)
    (st' : HitDetectorState) (evo : Option HitEvent)
    (heq : process_sample st ts amp = (st', evo)) :
    st'.params = st.params ∧
    (DeadTrig st → DeadTrig st') ∧
    (evo = none → st'.last_hit_ns = st.last_hit_ns) ∧
    (∀ ev, evo = some ev → st.triggered = true ∧
      (∃ t0, st.trigger_start_ns = some t0) ∧
      st'.last_hit_ns = some ts ∧ st'.triggered = false) := by
  simp only [process_sample] at heq
  split at heq
  · -- warmup
    injection heq with h1 h2
    subst h1; subst h2
    exact ⟨rfl, fun h => h, fun _ => rfl, fun ev hev => by cases hev⟩
  · split at heq
    · -- below min_amp
      injection heq with h1 h2
      subst h1; subst h2
      refine ⟨updateBaseline_params st amp, ?_, ?_, fun ev hev => by cases hev⟩
      · intro h htrig f hf
        rw [updateBaseline_triggered] at htrig
        rw [updateBaseline_last_hit] at hf
        obtain ⟨t0, h1, h2⟩ := h htrig f hf
        exact ⟨t0, by rw [updateBaseline_trigger_start]; exact h1,
          by rw [updateBaseline_params]; exact h2⟩
      · intro _; exact updateBaseline_last_hit st amp
    · split at heq
      · -- dead-time gate
        injection heq with h1 h2
        subst h1; subst h2
        refine ⟨updateBaseline_params st amp, ?_, ?_, fun ev hev => by cases hev⟩
        · intro h htrig f hf
          rw [updateBaseline_triggered] at htrig
          rw [updateBaseline_last_hit] at hf
          obtain ⟨t0, h1, h2⟩ := h htrig f hf
          exact ⟨t0, by rw [updateBaseline_trigger_start]; exact h1,
            by rw [updateBaseline_params]; exact h2⟩
        · intro _; exact updateBaseline_last_hit st amp
      · rename_i hnotdead
        split at heq
        · -- triggered branch
          rename_i htrig
          split at heq
          · -- primary release
            split at heq
            · -- trigger_start none (unreachable shape): silent
              injection heq with h1 h2
              subst h1; subst h2
              refine ⟨updateBaseline_params st amp, ?_, ?_, fun ev hev => by cases hev⟩
              · intro h htr f hf
                simp only [updateBaseline_triggered] at htr
                simp only [updateBaseline_last_hit] at hf
                obtain ⟨t0, h1, h2⟩ := h htr f hf
                exact ⟨t0, by simp only [updateBaseline_trigger_start]; exact h1,
                  by simp only [updateBaseline_params]; exact h2⟩
              · intro _; simp only [updateBaseline_last_hit]
            · rename_i t0 hsome
              split at heq
              · -- emit
                injection heq with h1 h2
                subst h1; subst h2
                refine ⟨updateBaseline_params st amp, ?_, ?_, ?_⟩
                · intro _ htr f hf; cases htr
                · intro h; cases h
                · intro ev _
                  refine ⟨?_, ⟨t0, ?_⟩, rfl, rfl⟩
                  · rw [← updateBaseline_triggered st amp]; exact htrig
                  · rw [← updateBaseline_trigger_start st amp]; exact hsome
              · -- short window: discard
                injection heq with h1 h2
                subst h1; subst h2
                refine ⟨updateBaseline_params st amp, ?_, ?_, fun ev hev => by cases hev⟩
                · intro _ htr f hf; cases htr
                · intro _; simp only [updateBaseline_last_hit]
          · -- fallback path
            split at heq
            · injection heq with h1 h2
              subst h1; subst h2
              refine ⟨updateBaseline_params st amp, ?_, ?_, fun ev hev => by cases hev⟩
              · intro h htr f hf
                simp only [updateBaseline_triggered] at htr
                simp only [updateBaseline_last_hit] at hf
                obtain ⟨t0, h1, h2⟩ := h htr f hf
                exact ⟨t0, by simp only [updateBaseline_trigger_start]; exact h1,
                  by simp only [updateBaseline_params]; exact h2⟩
              · intro _; simp only [updateBaseline_last_hit]
            · rename_i t0 hsome
              split at heq
              · split at heq
                · -- fallback emit
                  injection heq with h1 h2
                  subst h1; subst h2
                  refine ⟨updateBaseline_params st amp, ?_, ?_, ?_⟩
                  · intro _ htr f hf; cases htr
                  · intro h; cases h
                  · intro ev _
                    refine ⟨?_, ⟨t0, ?_⟩, rfl, rfl⟩
                    · rw [← updateBaseline_triggered st amp]; exact htrig
                    · rw [← updateBaseline_trigger_start st amp]; exact hsome
                · -- keep accumulating
                  injection heq with h1 h2
                  subst h1; subst h2
                  refine ⟨updateBaseline_params st amp, ?_, ?_, fun ev hev => by cases hev⟩
                  · intro h htr f hf
                    simp only [updateBaseline_last_hit] at hf
                    have htr0 : st.triggered = true := by
                      rw [← updateBaseline_triggered st amp]; exact htrig
                    obtain ⟨t0', h1, h2⟩ := h htr0 f hf
                    refine ⟨t0', ?_, by simp only [updateBaseline_params]; exact h2⟩
                    simp only [updateBaseline_trigger_start]; exact h1
                  · intro _; simp only [updateBaseline_last_hit]
              · injection heq with h1 h2
                subst h1; subst h2
                refine ⟨updateBaseline_params st amp, ?_, ?_, fun ev hev => by cases hev⟩
                · intro h htr f hf
                  simp only [updateBaseline_last_hit] at hf
                  have htr0 : st.triggered = true := by
                    rw [← updateBaseline_triggered st amp]; exact htrig
                  obtain ⟨t0', h1, h2⟩ := h htr0 f hf
                  refine ⟨t0', ?_, by simp only [updateBaseline_params]; exact h2⟩
                  simp only [updateBaseline_trigger_start]; exact h1
                · intro _; simp only [updateBaseline_last_hit]
        · -- not triggered
          split at heq
          · -- new trigger: the dead-time gate was passed
            rename_i hhigh
            injection heq with h1 h2
            subst h1; subst h2
            refine ⟨updateBaseline_params st amp, ?_, ?_, fun ev hev => by cases hev⟩
            · intro _ _ f hf
              simp only [updateBaseline_last_hit] at hf
              refine ⟨ts, rfl, ?_⟩
              simp only [updateBaseline_params]
              rw [updateBaseline_last_hit, hf] at hnotdead
              simp only [decide_eq_true_eq] at hnotdead
              rw [updateBaseline_params] at hnotdead
              omega
            · intro _; simp only [updateBaseline_last_hit]
          · injection heq with h1 h2
            subst h1; subst h2
            refine ⟨updateBaseline_params st amp, ?_, ?_, fun ev hev => by cases hev⟩
            · intro h htr f hf
              rw [updateBaseline_triggered] at htr
              rw [updateBaseline_last_hit] at hf
              obtain ⟨t0, h1, h2⟩ := h htr f hf
              exact ⟨t0, by rw [updateBaseline_trigger_start]; exact h1,
                by rw [updateBaseline_params]; exact h2⟩
            · intro _; exact updateBaseline_last_hit st amp

/-- Folding the detector over a sample stream preserves the dead-time chain
on the recorded (trigger-start, finalize) pairs. -/
theorem runHitDetectorTimed_aux (params : DetectorParams) (samples : List (Int × ℚ)) :
    ∀ (st : HitDetectorState) (recs : List (Int × Int)),
      st.params = params → DeadTrig st →
      st.last_hit_ns = recs.getLast?.map Prod.snd →
      List.Chain' (fun e1 e2 => params.dead_time_ms * 1000000 ≤ e2.1 - e1.2) recs →
      List.Chain' (fun e1 e2 => params.dead_time_ms * 1000000 ≤ e2.1 - e1.2)
        (samples.foldl
          (fun acc s =>
            let r := process_sample acc.1 s.1 s.2
            match r.2 with
            | some _ => (r.1, acc.2 ++ [(acc.1.trigger_start_ns.getD 0, s.1)])
            | none => (r.1, acc.2)) (st, recs)).2 := by
  induction samples with
  | nil => intro st recs _ _ _ hch; simpa using hch
  | cons s rest ih =>
      intro st recs hp hD hlh hch
      simp only [List.foldl_cons]
      have hstep := process_sample_dead st s.1 s.2
        (process_sample st s.1 s.2).1 (process_sample st s.1 s.2).2 rfl
      cases ho : (process_sample st s.1 s.2).2 with
      | none =>
          simp only [ho]
          apply ih
          · rw [hstep.1, hp]
          · exact hstep.2.1 hD
          · rw [hstep.2.2.1 ho]; exact hlh
          · exact hch
      | some ev =>
          simp only [ho]
          obtain ⟨htr, ⟨t0, hst0⟩, hlh', htr'⟩ := hstep.2.2.2 ev ho
          apply ih
          · rw [hstep.1, hp]
          · intro htrx
            rw [htr'] at htrx
            cases htrx
          · rw [hlh', List.getLast?_concat]
            rfl
          · rw [List.chain'_append]
            refine ⟨hch, List.chain'_singleton _, ?_⟩
            intro x hx y hy
            simp only [List.head?_cons, Option.mem_def, Option.some.injEq] at hy
            subst hy
            have hfx : st.last_hit_ns = some x.2 := by
              rw [hlh, hx]; rfl
            obtain ⟨t0', hstart', hgap⟩ := hD htr x.2 hfx
            rw [hst0] at hstart'
            injection hstart' with ht
            subst ht
            rw [hst0]
            simp only [Option.getD_some]
            rw [hp] at hgap
            exact hgap

/-- **C6.** Dead-time enforcement.  First: over any run of the envelope
detector, the recorded (trigger-start, finalize) pairs of consecutively
emitted events always satisfy `start₂ − finalize₁ ≥ dead_time_ms` (in
nanoseconds).  Second: a sample arriving within `dead_time_ms` of the last
finalized event leaves the trigger state unchanged — no new trigger can
start — and emits nothing. -/
theorem envelope_dead_time_gap (params : DetectorParams) (sensor_id : String)
    (now_ns : Int) (samples : List (Int × ℚ)) (st : HitDetectorState)
    (ts f : Int) (amp : ℚ) :
    List.Chain' (fun e1 e2 => params.dead_time_ms * 1000000 ≤ e2.1 - e1.2)
      (runHitDetectorTimed (initHitDetector params sensor_id now_ns) samples).2 ∧
    (st.last_hit_ns = some f →
     ¬ ts < st.warmup_end_ns →
     ¬ amp < st.params.min_amp →
     ts - f < st.params.dead_time_ms * 1000000 →
     (process_sample st ts amp).1.triggered = st.triggered ∧
     (process_sample st ts amp).2 = none) := by
  constructor
  · refine runHitDetectorTimed_aux params samples _ [] rfl ?_ rfl (List.chain'_nil)
    intro h
    simp [initHitDetector] at h
  · intro hlast hwu hmin hdl
    have hmin' : ¬ amp < (updateBaseline st amp).params.min_amp := by
      rw [updateBaseline_params]; exact hmin
    have hdead' : (match (updateBaseline st amp).last_hit_ns with
        | some last_hit =>
            decide (ts - last_hit < (updateBaseline st amp).params.dead_time_ms * 1000000)
        | none => false) = true := by
      rw [updateBaseline_last_hit, hlast, updateBaseline_params]
      simp only [decide_eq_true_eq]
      omega
    simp only [process_sample, if_neg hwu, if_neg hmin', hdead', if_true]
    exact ⟨updateBaseline_triggered st amp, trivial⟩

/-- A quiet state 0.5 ms after a finalized event, still inside the 1 ms
dead time of the demo parameters. -/
def hitDeadState : HitDetectorState :=
  { params := hitDemoParams, sensor_id := "plate", triggered := false,
    trigger_start_ns := none, last_hit_ns := some 0, warmup_end_ns := 0,
    baseline_samples := [], baseline := 0, event_samples := [] }

/-- Witness for `envelope_dead_time_gap`: a loud sample (amplitude 5, well
over the trigger threshold) arriving 0.5 ms after the last event does not
start a trigger and emits nothing. -/
theorem envelope_dead_time_gap_witness :
    (process_sample hitDeadState 500000 5).1.triggered = hitDeadState.triggered ∧
    (process_sample hitDeadState 500000 5).2 = none :=
  (envelope_dead_time_gap hitDemoParams "plate" 0 [] hitDeadState 500000 0 5).2
    rfl (by norm_num [hitDeadState]) (by norm_num [hitDeadState, hitDemoParams])
    (by norm_num [hitDeadState, hitDemoParams])

/-! ## Real-time timing correlator
(`RealTimeTimingCalibrator` of `src/impact_bridge/timing_calibration.py`)

The correlator's `_correlate_events` coroutine contains no true suspension
point (its single `await` runs a coroutine that never yields), so under
asyncio's cooperative scheduling each insertion's correlation pass runs to
completion before the next insertion is processed; the embedding therefore
models `add_shot_event` / `add_impact_event` as synchronously running the
correlation pass. -/

/-- Python's `int(x)` on a float: truncation toward zero. -/
def ratTrunc (q : ℚ) : Int := if q < 0 then ⌈q⌉ else ⌊q⌋

/-- `RealTimeTimingCalibrator._update_calibration`: append the delay to the
bounded rolling history (last 20), and once ≥ 3 samples exist move the
expected delay toward the recent mean by the learning rate, applied only
when the change exceeds the 5 ms deadband.  (The source also re-saves the
calibration file on update — persistence is out of scope.) -/
def update_calibration (cal : TimingCalibration) (recent_delays : List Int)
    (actual_delay : Int) : TimingCalibration × List Int :=
  let rd := recent_delays ++ [actual_delay]
  let rd := if 20 < rd.length then rd.drop (rd.length - 20) else rd
  if 3 ≤ rd.length then
    let recent_mean : ℚ := ((rd.map (fun d => (d : ℚ))).sum) / rd.length
    let old_expected := cal.expected_delay_ms
    let new_expected : Int := ratTrunc
      ((old_expected : ℚ) * (1 - cal.learning_rate) + recent_mean * cal.learning_rate)
    if 5 < |new_expected - old_expected| then
      ({ cal with expected_delay_ms := new_expected,
                  sample_count := cal.sample_count + 1 }, rd)
    else (cal, rd)
  else (cal, rd)

/-- The candidate scan of `_correlate_events` for one shot: walk
`enumerate(pending_impacts)` keeping the candidate that minimizes
`abs(delay_ms − expected_delay_ms)` (strict improvement only, so the first
minimizer wins), skipping already-used indices and impacts outside
`[shot.timestamp, shot.timestamp + correlation_window_ms]`. -/
def bestCandidateAux (cal : TimingCalibration) (shot : ShotEvent) :
    List ImpactEvent → Nat → List Nat → Option (Nat × ImpactEvent) →
      Option (Nat × ImpactEvent)
  | [], _, _, best => best
  | impact :: rest, i, used, best =>
      let best' :=
        if i ∈ used ∨ impact.timestamp < shot.timestamp ∨
            shot.timestamp + cal.correlation_window_ms < impact.timestamp then
          best
        else
          match best with
          | none => some (i, impact)
          | some (_, b) =>
              if |(impact.timestamp - shot.timestamp) - cal.expected_delay_ms|
                  < |(b.timestamp - shot.timestamp) - cal.expected_delay_ms| then
                some (i, impact)
              else best
      bestCandidateAux cal shot rest (i + 1) used best'

/-- Loop state of one `_correlate_events` pass: used impact indices, pairs
created so far, and the calibration/learning state (which the pass itself
mutates mid-loop). -/
structure CorrAcc where
  used : List Nat
  newPairs : List CorrelatedPair
  cal : TimingCalibration
  recentDelays : List Int
deriving Repr

/-- The per-shot body of `_correlate_events`: find the best candidate
impact; if one exists, build the pair and — when it `is_valid` — record it,
mark the impact index used, and run the learning update. -/
def correlateShot (impacts : List ImpactEvent) (acc : CorrAcc) (shot : ShotEvent) :
    CorrAcc :=
  match bestCandidateAux acc.cal shot impacts 0 acc.used none with
  | none => acc
  | some (best_index, best_impact) =>
      let actual_delay := best_impact.timestamp - shot.timestamp
      let pair : CorrelatedPair :=
        { shot := shot, impact := best_impact, delay_ms := actual_delay,
          confidence := calculate_confidence acc.cal actual_delay }
      if pair.is_valid acc.cal then
        let r := update_calibration acc.cal acc.recentDelays actual_delay
        { used := acc.used ++ [best_index]
          newPairs := acc.newPairs ++ [pair]
          cal := r.1
          recentDelays := r.2 }
      else acc

/-- Positional removal, keeping entries whose index (counted from `k`) is
not in `used`.  The source deletes the used indices in descending order
(`for i in sorted(used_impacts, reverse=True): del self.pending_impacts[i]`);
deleting a set of distinct in-range positions in descending order removes
exactly those positions, which is what this positional filter computes. -/
def removeIdxsFrom (used : List Nat) : Nat → List ImpactEvent → List ImpactEvent
  | _, [] => []
  | k, x :: xs =>
      if k ∈ used then removeIdxsFrom used (k + 1) xs
      else x :: removeIdxsFrom used (k + 1) xs

/-- Removal of the used impact indices from the pending queue. -/
def removeIdxs (l : List ImpactEvent) (used : List Nat) : List ImpactEvent :=
  removeIdxsFrom used 0 l

/-- `self.max_buffer_size = 50` truncation of `_cleanup_old_data`: keep only
the newest 50 pending entries. -/
def trunc50 {α : Type} (l : List α) : List α :=
  if 50 < l.length then l.drop (l.length - 50) else l

/-- State of the correlator.  `emitted_pairs` is the append-only history of
created pairs (the source additionally prunes its `correlated_pairs` stats
buffer by wall-clock age, which only discards records downstream of pair
creation and is not modelled). -/
structure CorrState where
  pending_shots : List ShotEvent
  pending_impacts : List ImpactEvent
  emitted_pairs : List CorrelatedPair
  cal : TimingCalibration
  recent_delays : List Int
deriving Repr

/-- `RealTimeTimingCalibrator._correlate_events`: scan every pending shot
against the pending impacts, collect valid pairs, then remove the matched
shots (first structurally-equal occurrence each, `list.remove` semantics)
and the used impact indices, and truncate the pending buffers. -/
def correlate_events (st : CorrState) : CorrState :=
  let acc := st.pending_shots.foldl (correlateShot st.pending_impacts)
    { used := [], newPairs := [], cal := st.cal, recentDelays := st.recent_delays }
  let shots' := acc.newPairs.foldl (fun l p => l.erase p.shot) st.pending_shots
  let impacts' := removeIdxs st.pending_impacts acc.used
  { pending_shots := trunc50 shots'
    pending_impacts := trunc50 impacts'
    emitted_pairs := st.emitted_pairs ++ acc.newPairs
    cal := acc.cal
    recent_delays := acc.recentDelays }

/-- `add_shot_event`: append, prune entries older than the correlation
window relative to the new timestamp, correlate. -/
def add_shot_event (st : CorrState) (timestamp : Int) (shot_number : Int)
    (device_id : String) : CorrState :=
  let shot : ShotEvent := ⟨timestamp, shot_number, device_id⟩
  let shots := st.pending_shots ++ [shot]
  let cutoff := timestamp - st.cal.correlation_window_ms
  correlate_events { st with pending_shots := shots.filter (fun s => cutoff ≤ s.timestamp) }

/-- The `ImpactEvent` value `add_impact_event` constructs: the
`raw_value=raw_value or magnitude` Python-truthiness default falls back to
the magnitude when the raw value is absent or zero. -/
def insertedImpact (timestamp : Int) (magnitude : ℚ) (device_id : String)
    (raw_value : Option ℚ) : ImpactEvent :=
  { timestamp := timestamp, magnitude := magnitude, device_id := device_id
    raw_value :=
      match raw_value with
      | some r => if r = 0 then magnitude else r
      | none => magnitude }

/-- `add_impact_event`: skip weak impacts, otherwise append, prune old
entries, correlate. -/
def add_impact_event (st : CorrState) (timestamp : Int) (magnitude : ℚ)
    (device_id : String) (raw_value : Option ℚ) : CorrState :=
  if magnitude < st.cal.minimum_magnitude then st
  else
    let impacts := st.pending_impacts ++ [insertedImpact timestamp magnitude device_id raw_value]
    let cutoff := timestamp - st.cal.correlation_window_ms
    correlate_events
      { st with pending_impacts := impacts.filter (fun i => cutoff ≤ i.timestamp) }

/-- One insertion into the correlator, as seen by its callers. -/
inductive CorrOp where
  | shot (timestamp : Int) (shot_number : Int) (device_id : String)
  | impact (timestamp : Int) (magnitude : ℚ) (device_id : String) (raw_value : Option ℚ)

/-- Apply one insertion. -/
def applyOp (st : CorrState) : CorrOp → CorrState
  | .shot ts n dev => add_shot_event st ts n dev
  | .impact ts mag dev raw => add_impact_event st ts mag dev raw

/-- Run an interleaving of insertions from a fresh correlator. -/
def runOps (cal0 : TimingCalibration) (ops : List CorrOp) : CorrState :=
  ops.foldl applyOp
    { pending_shots := [], pending_impacts := [], emitted_pairs := [],
      cal := cal0, recent_delays := [] }

/-- The shot value an operation inserts, if it is a shot insertion. -/
def shotOfOp : CorrOp → Option ShotEvent
  | .shot ts n dev => some ⟨ts, n, dev⟩
  | _ => none

/-- The impact value an operation offers for insertion, if it is an impact
insertion (the value `add_impact_event` would construct; the magnitude gate
may still drop it). -/
def impactOfOp : CorrOp → Option ImpactEvent
  | .impact ts mag dev raw => some (insertedImpact ts mag dev raw)
  | _ => none

/-- Soundness of the candidate scan: a selected candidate is either the one
carried in, or a fresh unused in-window entry of the scanned list. -/
theorem bestCandidateAux_sound (cal : TimingCalibration) (shot : ShotEvent) :
    ∀ (l : List ImpactEvent) (i0 : Nat) (used : List Nat)
      (best : Option (Nat × ImpactEvent)) (j : Nat) (b : ImpactEvent),
      bestCandidateAux cal shot l i0 used best = some (j, b) →
      best = some (j, b) ∨
      (j ∉ used ∧ i0 ≤ j ∧ l.get? (j - i0) = some b ∧
        shot.timestamp ≤ b.timestamp ∧
        b.timestamp ≤ shot.timestamp + cal.correlation_window_ms) := by
  intro l
  induction l with
  | nil =>
      intro i0 used best j b h
      exact Or.inl h
  | cons x xs ih =>
      intro i0 used best j b h
      simp only [bestCandidateAux] at h
      by_cases hskip : i0 ∈ used ∨ x.timestamp < shot.timestamp ∨
          shot.timestamp + cal.correlation_window_ms < x.timestamp
      · rw [if_pos hskip] at h
        rcases ih (i0 + 1) used best j b h with h' | h'
        · exact Or.inl h'
        · refine Or.inr ⟨h'.1, by omega, ?_, h'.2.2.2⟩
          have : j - i0 = (j - (i0 + 1)) + 1 := by omega
          rw [this, List.get?_cons_succ]
          exact h'.2.2.1
      · rw [if_neg hskip] at h
        push_neg at hskip
        obtain ⟨hu, hlo, hhi⟩ := hskip
        rcases hbest : best with _ | ⟨j0, b0⟩
        · subst hbest
          replace h : bestCandidateAux cal shot xs (i0 + 1) used (some (i0, x))
              = some (j, b) := h
          rcases ih (i0 + 1) used (some (i0, x)) j b h with h' | h'
          · injection h' with h'
            injection h' with hj hb
            subst hj; subst hb
            exact Or.inr ⟨hu, le_refl _, by simp, hlo, hhi⟩
          · refine Or.inr ⟨h'.1, by omega, ?_, h'.2.2.2⟩
            have hj : j - i0 = (j - (i0 + 1)) + 1 := by omega
            rw [hj, List.get?_cons_succ]
            exact h'.2.2.1
        · subst hbest
          replace h : bestCandidateAux cal shot xs (i0 + 1) used
              (if |(x.timestamp - shot.timestamp) - cal.expected_delay_ms|
                  < |(b0.timestamp - shot.timestamp) - cal.expected_delay_ms| then
                some (i0, x)
              else some (j0, b0)) = some (j, b) := h
          by_cases himp : |(x.timestamp - shot.timestamp) - cal.expected_delay_ms|
              < |(b0.timestamp - shot.timestamp) - cal.expected_delay_ms|
          · rw [if_pos himp] at h
            rcases ih (i0 + 1) used (some (i0, x)) j b h with h' | h'
            · injection h' with h'
              injection h' with hj hb
              subst hj; subst hb
              exact Or.inr ⟨hu, le_refl _, by simp, hlo, hhi⟩
            · refine Or.inr ⟨h'.1, by omega, ?_, h'.2.2.2⟩
              have hj : j - i0 = (j - (i0 + 1)) + 1 := by omega
              rw [hj, List.get?_cons_succ]
              exact h'.2.2.1
          · rw [if_neg himp] at h
            rcases ih (i0 + 1) used (some (j0, b0)) j b h with h' | h'
            · exact Or.inl h'
            · refine Or.inr ⟨h'.1, by omega, ?_, h'.2.2.2⟩
              have hj : j - i0 = (j - (i0 + 1)) + 1 := by omega
              rw [hj, List.get?_cons_succ]
              exact h'.2.2.1

/-- `removeIdxsFrom` depends on the index set only through membership at
indices ≥ the start. -/
theorem removeIdxsFrom_congr (u₁ u₂ : List Nat) :
    ∀ (l : List ImpactEvent) (k : Nat),
      (∀ j, k ≤ j → (j ∈ u₁ ↔ j ∈ u₂)) →
      removeIdxsFrom u₁ k l = removeIdxsFrom u₂ k l := by
  intro l
  induction l with
  | nil => intro k _; rfl
  | cons x xs ih =>
      intro k hmem
      rw [removeIdxsFrom, removeIdxsFrom]
      have hnext : ∀ j, k + 1 ≤ j → (j ∈ u₁ ↔ j ∈ u₂) := fun j hj => hmem j (by omega)
      by_cases hk : k ∈ u₁
      · rw [if_pos hk, if_pos ((hmem k (le_refl k)).mp hk)]
        exact ih (k + 1) hnext
      · rw [if_neg hk, if_neg (fun h => hk ((hmem k (le_refl k)).mpr h))]
        rw [ih (k + 1) hnext]

/-- Marking one more in-range unused position as removed takes exactly that
entry out of the remaining list (up to permutation). -/
theorem removeIdxsFrom_cons_perm (used : List Nat) :
    ∀ (l : List ImpactEvent) (k i : Nat) (imp : ImpactEvent),
      i ∉ used → k ≤ i → l.get? (i - k) = some imp →
      List.Perm (imp :: removeIdxsFrom (i :: used) k l) (removeIdxsFrom used k l) := by
  intro l
  induction l with
  | nil =>
      intro k i imp _ _ hget
      simp at hget
  | cons x xs ih =>
      intro k i imp hi hki hget
      by_cases hik : i = k
      · subst hik
        rw [Nat.sub_self, List.get?_cons_zero] at hget
        injection hget with hget
        subst hget
        rw [removeIdxsFrom, removeIdxsFrom]
        rw [if_pos (List.mem_cons_self i used), if_neg hi]
        rw [removeIdxsFrom_congr (i :: used) used xs (i + 1)
          (by intro j hj; simp; omega)]
      · have hki' : k + 1 ≤ i := by omega
        have hget' : xs.get? (i - (k + 1)) = some imp := by
          have : i - k = (i - (k + 1)) + 1 := by omega
          rw [this, List.get?_cons_succ] at hget
          exact hget
        rw [removeIdxsFrom, removeIdxsFrom]
        by_cases hk : k ∈ used
        · rw [if_pos hk, if_pos (List.mem_cons_of_mem i hk)]
          exact ih (k + 1) i imp hi hki' hget'
        · have hk' : k ∉ i :: used := by
            intro h
            rcases List.mem_cons.mp h with h | h
            · exact hik h.symm
            · exact hk h
          rw [if_neg hk, if_neg hk']
          exact List.Perm.trans (List.Perm.swap x imp _)
            (List.Perm.cons x (ih (k + 1) i imp hi hki' hget'))

/-- Removing no indices keeps the list. -/
theorem removeIdxsFrom_nil : ∀ (k : Nat) (l : List ImpactEvent),
    removeIdxsFrom [] k l = l := by
  intro k l
  induction l generalizing k with
  | nil => rfl
  | cons x xs ih =>
      rw [removeIdxsFrom, if_neg (List.not_mem_nil k)]
      rw [ih]

/-- One per-shot step of the correlation pass either leaves the loop state
unchanged, or appends exactly one pair — for the scanned shot — together
with one fresh used index holding that pair's impact. -/
theorem correlateShot_cases (impacts : List ImpactEvent) (acc : CorrAcc)
    (shot : ShotEvent) :
    correlateShot impacts acc shot = acc ∨
    ∃ i imp pair, i ∉ acc.used ∧ impacts.get? i = some imp ∧
      pair = { shot := shot, impact := imp, delay_ms := imp.timestamp - shot.timestamp,
               confidence := calculate_confidence acc.cal (imp.timestamp - shot.timestamp) } ∧
      correlateShot impacts acc shot =
        { used := acc.used ++ [i]
          newPairs := acc.newPairs ++ [pair]
          cal := (update_calibration acc.cal acc.recentDelays
            (imp.timestamp - shot.timestamp)).1
          recentDelays := (update_calibration acc.cal acc.recentDelays
            (imp.timestamp - shot.timestamp)).2 } := by
  cases hbc : bestCandidateAux acc.cal shot impacts 0 acc.used none with
  | none =>
      left
      simp only [correlateShot, hbc]
  | some ib =>
      obtain ⟨i, imp⟩ := ib
      have hs := bestCandidateAux_sound acc.cal shot impacts 0 acc.used none i imp hbc
      rcases hs with h | h
      · cases h
      · obtain ⟨hu, _, hget, _, _⟩ := h
        rw [Nat.sub_zero] at hget
        by_cases hv : (CorrelatedPair.mk shot imp (imp.timestamp - shot.timestamp)
            (calculate_confidence acc.cal (imp.timestamp - shot.timestamp))).is_valid
              acc.cal = true
        · right
          refine ⟨i, imp, _, hu, hget, rfl, ?_⟩
          simp only [correlateShot, hbc]
          rw [if_pos hv]
        · left
          simp only [correlateShot, hbc]
          rw [if_neg hv]

/-- Over the shot loop, the shots of the newly created pairs form a sublist
of the scanned pending shots: each pending-shot position yields at most one
pair. -/
theorem correlateShot_fold_shots_sublist (impacts : List ImpactEvent) :
    ∀ (shots : List ShotEvent) (acc : CorrAcc),
      ∃ extra, (shots.foldl (correlateShot impacts) acc).newPairs
          = acc.newPairs ++ extra ∧
        List.Sublist (extra.map CorrelatedPair.shot) shots := by
  intro shots
  induction shots with
  | nil => exact fun acc => ⟨[], by simp, List.nil_sublist _⟩
  | cons shot rest ih =>
      intro acc
      simp only [List.foldl_cons]
      rcases correlateShot_cases impacts acc shot with hc | ⟨i, imp, pair, _, _, hpair, hc⟩
      · rw [hc]
        obtain ⟨extra, he, hsub⟩ := ih acc
        exact ⟨extra, he, hsub.cons shot⟩
      · rw [hc]
        obtain ⟨extra, he, hsub⟩ := ih
          { used := acc.used ++ [i]
            newPairs := acc.newPairs ++ [pair]
            cal := (update_calibration acc.cal acc.recentDelays
              (imp.timestamp - shot.timestamp)).1
            recentDelays := (update_calibration acc.cal acc.recentDelays
              (imp.timestamp - shot.timestamp)).2 }
        refine ⟨pair :: extra, ?_, ?_⟩
        · rw [he]
          simp
        · rw [List.map_cons]
          have hps : pair.shot = shot := by rw [hpair]
          rw [hps]
          exact hsub.cons₂ shot

/-- Over the shot loop, the impacts of the created pairs together with the
surviving pending impacts are a permutation of the original pending
impacts: each created pair consumes exactly one pending impact entry. -/
theorem correlateShot_fold_impacts_perm (impacts : List ImpactEvent) :
    ∀ (shots : List ShotEvent) (acc : CorrAcc),
      List.Perm (acc.newPairs.map CorrelatedPair.impact ++ removeIdxs impacts acc.used)
        impacts →
      List.Perm
        ((shots.foldl (correlateShot impacts) acc).newPairs.map CorrelatedPair.impact
          ++ removeIdxs impacts (shots.foldl (correlateShot impacts) acc).used)
        impacts := by
  intro shots
  induction shots with
  | nil => exact fun acc h => h
  | cons shot rest ih =>
      intro acc hperm
      simp only [List.foldl_cons]
      rcases correlateShot_cases impacts acc shot with hc | ⟨i, imp, pair, hu, hget, hpair, hc⟩
      · rw [hc]
        exact ih acc hperm
      · rw [hc]
        apply ih
        have hpi : pair.impact = imp := by rw [hpair]
        have hcong : removeIdxs impacts (acc.used ++ [i])
            = removeIdxs impacts (i :: acc.used) := by
          unfold removeIdxs
          refine removeIdxsFrom_congr _ _ impacts 0 ?_
          intro j _
          simp [or_comm]
        have hstep : List.Perm (imp :: removeIdxs impacts (i :: acc.used))
            (removeIdxs impacts acc.used) := by
          unfold removeIdxs
          exact removeIdxsFrom_cons_perm acc.used impacts 0 i imp hu (Nat.zero_le i)
            (by rw [Nat.sub_zero]; exact hget)
        simp only [List.map_append, List.map_cons, List.map_nil]
        rw [hcong, hpi]
        have hassoc : acc.newPairs.map CorrelatedPair.impact ++ [imp]
              ++ removeIdxs impacts (i :: acc.used)
            = acc.newPairs.map CorrelatedPair.impact
              ++ (imp :: removeIdxs impacts (i :: acc.used)) := by
          rw [List.append_assoc]
          rfl
        rw [hassoc]
        exact List.Perm.trans (List.Perm.append_left _ hstep) hperm

/-- Count after the `list.remove`-style erase fold: each pair removes one
occurrence of its shot (when present). -/
theorem count_foldl_erase (s : ShotEvent) :
    ∀ (pairs : List CorrelatedPair) (l : List ShotEvent),
      List.count s (pairs.foldl (fun l p => l.erase p.shot) l)
        = List.count s l - List.count s (pairs.map CorrelatedPair.shot) := by
  intro pairs
  induction pairs with
  | nil => intro l; simp
  | cons p ps ih =>
      intro l
      simp only [List.foldl_cons, List.map_cons]
      rw [ih (l.erase p.shot), List.count_erase, List.count_cons]
      rcases instDecidableEqBool (s == p.shot) true with h | h
      · simp only [beq_iff_eq] at h
        omega
      · simp only [beq_iff_eq] at h
        omega

/-- Buffer truncation only drops entries. -/
theorem count_trunc50_le {α : Type} [DecidableEq α] (a : α) (l : List α) :
    List.count a (trunc50 l) ≤ List.count a l := by
  unfold trunc50
  split
  · exact (List.drop_sublist _ _).count_le a
  · exact le_refl _

/-- Conservation through one `_correlate_events` pass: for every shot value
and every impact value, (occurrences among emitted pairs) + (occurrences
still pending) does not increase. -/
theorem correlate_events_counts (st : CorrState) (s : ShotEvent) (v : ImpactEvent) :
    List.count s ((correlate_events st).emitted_pairs.map CorrelatedPair.shot)
        + List.count s (correlate_events st).pending_shots
      ≤ List.count s (st.emitted_pairs.map CorrelatedPair.shot)
        + List.count s st.pending_shots ∧
    List.count v ((correlate_events st).emitted_pairs.map CorrelatedPair.impact)
        + List.count v (correlate_events st).pending_impacts
      ≤ List.count v (st.emitted_pairs.map CorrelatedPair.impact)
        + List.count v st.pending_impacts := by
  unfold correlate_events
  constructor
  · -- shots
    obtain ⟨extra, he, hsub⟩ := correlateShot_fold_shots_sublist st.pending_impacts
      st.pending_shots
      { used := [], newPairs := [], cal := st.cal, recentDelays := st.recent_delays }
    simp only
    rw [he]
    simp only [List.nil_append, List.map_append, List.count_append]
    have h1 : List.count s (trunc50
        (extra.foldl (fun l p => l.erase p.shot) st.pending_shots))
        ≤ List.count s st.pending_shots
          - List.count s (extra.map CorrelatedPair.shot) := by
      calc List.count s (trunc50 (extra.foldl (fun l p => l.erase p.shot) st.pending_shots))
          ≤ List.count s (extra.foldl (fun l p => l.erase p.shot) st.pending_shots) :=
            count_trunc50_le s _
        _ = List.count s st.pending_shots - List.count s (extra.map CorrelatedPair.shot) :=
            count_foldl_erase s extra st.pending_shots
    have h2 : List.count s (extra.map CorrelatedPair.shot)
        ≤ List.count s st.pending_shots := hsub.count_le s
    omega
  · -- impacts
    have hperm := correlateShot_fold_impacts_perm st.pending_impacts st.pending_shots
      { used := [], newPairs := [], cal := st.cal, recentDelays := st.recent_delays }
      (by simp only [List.map_nil, List.nil_append]
          unfold removeIdxs
          rw [removeIdxsFrom_nil])
    have hcnt := hperm.count_eq v
    simp only [List.count_append] at hcnt
    simp only [List.map_append, List.count_append]
    have h1 : List.count v (trunc50 (removeIdxs st.pending_impacts
        (st.pending_shots.foldl (correlateShot st.pending_impacts)
          { used := [], newPairs := [], cal := st.cal,
            recentDelays := st.recent_delays }).used))
        ≤ List.count v (removeIdxs st.pending_impacts
          (st.pending_shots.foldl (correlateShot st.pending_impacts)
            { used := [], newPairs := [], cal := st.cal,
              recentDelays := st.recent_delays }).used) := count_trunc50_le v _
    omega

/-- Conservation through one insertion: each operation adds at most its own
inserted value to the (emitted + pending) occurrence count of any event
value. -/
theorem applyOp_counts (st : CorrState) (op : CorrOp) (s : ShotEvent) (v : ImpactEvent) :
    List.count s ((applyOp st op).emitted_pairs.map CorrelatedPair.shot)
        + List.count s (applyOp st op).pending_shots
      ≤ List.count s (st.emitted_pairs.map CorrelatedPair.shot)
        + List.count s st.pending_shots + List.count s ((shotOfOp op).toList) ∧
    List.count v ((applyOp st op).emitted_pairs.map CorrelatedPair.impact)
        + List.count v (applyOp st op).pending_impacts
      ≤ List.count v (st.emitted_pairs.map CorrelatedPair.impact)
        + List.count v st.pending_impacts + List.count v ((impactOfOp op).toList) := by
  cases op with
  | shot ts n dev =>
      have hc := correlate_events_counts
        { st with
          pending_shots :=
            (st.pending_shots ++ [ShotEvent.mk ts n dev]).filter
              (fun s' => ts - st.cal.correlation_window_ms ≤ s'.timestamp) } s v
      constructor
      · refine le_trans hc.1 ?_
        dsimp only
        simp only [shotOfOp, Option.toList_some]
        have hfil : List.count s ((st.pending_shots ++ [ShotEvent.mk ts n dev]).filter
              (fun s' => decide (ts - st.cal.correlation_window_ms ≤ s'.timestamp)))
            ≤ List.count s (st.pending_shots ++ [ShotEvent.mk ts n dev]) :=
          (List.filter_sublist _).count_le s
        rw [List.count_append] at hfil
        omega
      · refine le_trans hc.2 ?_
        dsimp only
        simp [impactOfOp]
  | impact ts mag dev raw =>
      by_cases hmag : mag < st.cal.minimum_magnitude
      · have happ : applyOp st (.impact ts mag dev raw) = st := by
          simp only [applyOp, add_impact_event, if_pos hmag]
        rw [happ]
        exact ⟨Nat.le_add_right _ _, Nat.le_add_right _ _⟩
      · have hc := correlate_events_counts
          { st with
            pending_impacts :=
              (st.pending_impacts ++ [insertedImpact ts mag dev raw]).filter
                (fun i => ts - st.cal.correlation_window_ms ≤ i.timestamp) } s v
        have happ : applyOp st (.impact ts mag dev raw) = correlate_events
            { st with
              pending_impacts :=
                (st.pending_impacts ++ [insertedImpact ts mag dev raw]).filter
                  (fun i => ts - st.cal.correlation_window_ms ≤ i.timestamp) } := by
          simp only [applyOp, add_impact_event, if_neg hmag]
        rw [happ]
        constructor
        · refine le_trans hc.1 ?_
          dsimp only
          simp [shotOfOp]
        · refine le_trans hc.2 ?_
          dsimp only
          simp only [impactOfOp, Option.toList_some]
          have hfil : List.count v
              ((st.pending_impacts ++ [insertedImpact ts mag dev raw]).filter
                (fun i => decide (ts - st.cal.correlation_window_ms ≤ i.timestamp)))
              ≤ List.count v (st.pending_impacts ++ [insertedImpact ts mag dev raw]) :=
            (List.filter_sublist _).count_le v
          rw [List.count_append] at hfil
          omega

/-- Counting an option-insertion over `filterMap`. -/
theorem count_filterMap_cons {α : Type} [DecidableEq α]
    (a : α) (f : CorrOp → Option α) (op : CorrOp) (rest : List CorrOp) :
    List.count a ((op :: rest).filterMap f)
      = List.count a ((f op).toList) + List.count a (rest.filterMap f) := by
  cases hf : f op with
  | none => simp [List.filterMap_cons, hf]
  | some x =>
      simp only [List.filterMap_cons, hf, Option.toList_some, List.count_cons,
        List.count_nil]
      omega

/-- Run-level conservation, generalized over the starting state. -/
theorem runOps_counts_aux (s : ShotEvent) (v : ImpactEvent) :
    ∀ (ops : List CorrOp) (st : CorrState),
      List.count s ((ops.foldl applyOp st).emitted_pairs.map CorrelatedPair.shot)
          + List.count s (ops.foldl applyOp st).pending_shots
        ≤ List.count s (st.emitted_pairs.map CorrelatedPair.shot)
          + List.count s st.pending_shots
          + List.count s (ops.filterMap shotOfOp) ∧
      List.count v ((ops.foldl applyOp st).emitted_pairs.map CorrelatedPair.impact)
          + List.count v (ops.foldl applyOp st).pending_impacts
        ≤ List.count v (st.emitted_pairs.map CorrelatedPair.impact)
          + List.count v st.pending_impacts
          + List.count v (ops.filterMap impactOfOp) := by
  intro ops
  induction ops with
  | nil => intro st; simp
  | cons op rest ih =>
      intro st
      simp only [List.foldl_cons]
      have h1 := ih (applyOp st op)
      have h2 := applyOp_counts st op s v
      rw [count_filterMap_cons s shotOfOp op rest, count_filterMap_cons v impactOfOp op rest]
      exact ⟨by omega, by omega⟩

/-- **C1.** Exactly-once matching: over any interleaving of shot and impact
insertions into a fresh correlator, every shot value appears among the
emitted `CorrelatedPair`s at most as many times as it was inserted, and
likewise for every impact value.  In particular an event inserted once is
consumed into at most one pair — once paired it has been removed from its
pending queue (see `correlate_events_counts`, whose conserved quantity is
emitted-count plus pending-count) and is never matched again. -/
theorem correlator_exactly_once (cal0 : TimingCalibration) (ops : List CorrOp)
    (s : ShotEvent) (v : ImpactEvent) :
    List.count s ((runOps cal0 ops).emitted_pairs.map CorrelatedPair.shot)
        ≤ List.count s (ops.filterMap shotOfOp) ∧
    List.count v ((runOps cal0 ops).emitted_pairs.map CorrelatedPair.impact)
        ≤ List.count v (ops.filterMap impactOfOp) := by
  have h := runOps_counts_aux s v ops
    { pending_shots := [], pending_impacts := [], emitted_pairs := [],
      cal := cal0, recent_delays := [] }
  simp only [List.map_nil, List.count_nil] at h
  unfold runOps
  exact ⟨by omega, by omega⟩

/-- Minimality of the candidate scan: the selected candidate's deviation
from the expected delay is no larger than the carried-in candidate's and
than any unused in-window candidate's in the scanned list. -/
theorem bestCandidateAux_min (cal : TimingCalibration) (shot : ShotEvent) :
    ∀ (l : List ImpactEvent) (i0 : Nat) (used : List Nat)
      (best : Option (Nat × ImpactEvent)) (j : Nat) (b : ImpactEvent),
      bestCandidateAux cal shot l i0 used best = some (j, b) →
      (∀ j0 b0, best = some (j0, b0) →
        |(b.timestamp - shot.timestamp) - cal.expected_delay_ms|
          ≤ |(b0.timestamp - shot.timestamp) - cal.expected_delay_ms|) ∧
      (∀ k imp, l.get? k = some imp → (i0 + k) ∉ used →
        shot.timestamp ≤ imp.timestamp →
        imp.timestamp ≤ shot.timestamp + cal.correlation_window_ms →
        |(b.timestamp - shot.timestamp) - cal.expected_delay_ms|
          ≤ |(imp.timestamp - shot.timestamp) - cal.expected_delay_ms|) := by
  intro l
  induction l with
  | nil =>
      intro i0 used best j b h
      replace h : best = some (j, b) := h
      constructor
      · intro j0 b0 hb0
        rw [hb0] at h
        injection h with h
        injection h with hj hb
        rw [hb]
      · intro k imp hget
        simp at hget
  | cons x xs ih =>
      intro i0 used best j b h
      simp only [bestCandidateAux] at h
      by_cases hskip : i0 ∈ used ∨ x.timestamp < shot.timestamp ∨
          shot.timestamp + cal.correlation_window_ms < x.timestamp
      · rw [if_pos hskip] at h
        have hih := ih (i0 + 1) used best j b h
        refine ⟨hih.1, ?_⟩
        intro k imp hget hku hlo hhi
        cases k with
        | zero =>
            rw [List.get?_cons_zero] at hget
            injection hget with hget
            subst hget
            exact absurd hskip (by push_neg; exact ⟨by simpa using hku, hlo, hhi⟩)
        | succ k' =>
            refine hih.2 k' imp (by rwa [List.get?_cons_succ] at hget) ?_ hlo hhi
            rwa [show i0 + 1 + k' = i0 + (k' + 1) from by omega]
      · rw [if_neg hskip] at h
        push_neg at hskip
        obtain ⟨hu, hlo0, hhi0⟩ := hskip
        rcases hbest : best with _ | ⟨j0, b0⟩
        · subst hbest
          replace h : bestCandidateAux cal shot xs (i0 + 1) used (some (i0, x))
              = some (j, b) := h
          have hih := ih (i0 + 1) used (some (i0, x)) j b h
          constructor
          · intro j0 b0 hb0
            cases hb0
          · intro k imp hget hku hlo hhi
            cases k with
            | zero =>
                rw [List.get?_cons_zero] at hget
                injection hget with hget
                subst hget
                exact hih.1 i0 x rfl
            | succ k' =>
                refine hih.2 k' imp (by rwa [List.get?_cons_succ] at hget) ?_ hlo hhi
                rwa [show i0 + 1 + k' = i0 + (k' + 1) from by omega]
        · subst hbest
          replace h : bestCandidateAux cal shot xs (i0 + 1) used
              (if |(x.timestamp - shot.timestamp) - cal.expected_delay_ms|
                  < |(b0.timestamp - shot.timestamp) - cal.expected_delay_ms| then
                some (i0, x)
              else some (j0, b0)) = some (j, b) := h
          by_cases himp : |(x.timestamp - shot.timestamp) - cal.expected_delay_ms|
              < |(b0.timestamp - shot.timestamp) - cal.expected_delay_ms|
          · rw [if_pos himp] at h
            have hih := ih (i0 + 1) used (some (i0, x)) j b h
            have hbx := hih.1 i0 x rfl
            constructor
            · intro j0' b0' hb0
              injection hb0 with hb0
              injection hb0 with hj0 hb0v
              subst hb0v
              exact le_trans hbx (le_of_lt himp)
            · intro k imp hget hku hlo hhi
              cases k with
              | zero =>
                  rw [List.get?_cons_zero] at hget
                  injection hget with hget
                  subst hget
                  exact hbx
              | succ k' =>
                  refine hih.2 k' imp (by rwa [List.get?_cons_succ] at hget) ?_ hlo hhi
                  rwa [show i0 + 1 + k' = i0 + (k' + 1) from by omega]
          · rw [if_neg himp] at h
            push_neg at himp
            have hih := ih (i0 + 1) used (some (j0, b0)) j b h
            have hbb0 := hih.1 j0 b0 rfl
            constructor
            · intro j0' b0' hb0
              injection hb0 with hb0
              injection hb0 with hj0 hb0v
              subst hb0v
              exact hbb0
            · intro k imp hget hku hlo hhi
              cases k with
              | zero =>
                  rw [List.get?_cons_zero] at hget
                  injection hget with hget
                  subst hget
                  exact le_trans hbb0 himp
              | succ k' =>
                  refine hih.2 k' imp (by rwa [List.get?_cons_succ] at hget) ?_ hlo hhi
                  rwa [show i0 + 1 + k' = i0 + (k' + 1) from by omega]

/-- Completeness of the candidate scan: an empty result means no carried-in
candidate and no unused in-window candidate existed at all. -/
theorem bestCandidateAux_none (cal : TimingCalibration) (shot : ShotEvent) :
    ∀ (l : List ImpactEvent) (i0 : Nat) (used : List Nat)
      (best : Option (Nat × ImpactEvent)),
      bestCandidateAux cal shot l i0 used best = none →
      best = none ∧
      ∀ k imp, l.get? k = some imp → (i0 + k) ∉ used →
        shot.timestamp ≤ imp.timestamp →
        imp.timestamp ≤ shot.timestamp + cal.correlation_window_ms → False := by
  intro l
  induction l with
  | nil =>
      intro i0 used best h
      replace h : best = none := h
      exact ⟨h, by intro k imp hget; simp at hget⟩
  | cons x xs ih =>
      intro i0 used best h
      simp only [bestCandidateAux] at h
      by_cases hskip : i0 ∈ used ∨ x.timestamp < shot.timestamp ∨
          shot.timestamp + cal.correlation_window_ms < x.timestamp
      · rw [if_pos hskip] at h
        have hih := ih (i0 + 1) used best h
        refine ⟨hih.1, ?_⟩
        intro k imp hget hku hlo hhi
        cases k with
        | zero =>
            rw [List.get?_cons_zero] at hget
            injection hget with hget
            subst hget
            exact absurd hskip (by push_neg; exact ⟨by simpa using hku, hlo, hhi⟩)
        | succ k' =>
            refine hih.2 k' imp (by rwa [List.get?_cons_succ] at hget) ?_ hlo hhi
            rwa [show i0 + 1 + k' = i0 + (k' + 1) from by omega]
      · rw [if_neg hskip] at h
        exfalso
        rcases hbest : best with _ | ⟨j0, b0⟩
        · subst hbest
          replace h : bestCandidateAux cal shot xs (i0 + 1) used (some (i0, x))
              = none := h
          cases (ih (i0 + 1) used (some (i0, x)) h).1
        · subst hbest
          replace h : bestCandidateAux cal shot xs (i0 + 1) used
              (if |(x.timestamp - shot.timestamp) - cal.expected_delay_ms|
                  < |(b0.timestamp - shot.timestamp) - cal.expected_delay_ms| then
                some (i0, x)
              else some (j0, b0)) = none := h
          by_cases himp : |(x.timestamp - shot.timestamp) - cal.expected_delay_ms|
              < |(b0.timestamp - shot.timestamp) - cal.expected_delay_ms|
          · rw [if_pos himp] at h
            cases (ih (i0 + 1) used (some (i0, x)) h).1
          · rw [if_neg himp] at h
            cases (ih (i0 + 1) used (some (j0, b0)) h).1

/-- **C3.** Per-shot matching of `_correlate_events`.  When no pending
impact lies in `[shot.ts, shot.ts + correlation_window_ms]` (among the
not-yet-used ones), nothing is emitted.  When the scan selects an impact, it
is an unused pending impact inside that window minimizing
`|observed_delay − expected_delay_ms|` over all such candidates, and a
`CorrelatedPair` for it — with the code's delay and confidence — is emitted
if and only if `observed_delay ∈ [0, correlation_window_ms]`,
`impact.magnitude ≥ minimum_magnitude`, and
`|observed_delay − expected_delay_ms| ≤ delay_tolerance_ms`. -/
theorem correlator_shot_matching (impacts : List ImpactEvent) (acc : CorrAcc)
    (shot : ShotEvent) :
    (bestCandidateAux acc.cal shot impacts 0 acc.used none = none →
      (∀ k imp, impacts.get? k = some imp → k ∉ acc.used →
        shot.timestamp ≤ imp.timestamp →
        imp.timestamp ≤ shot.timestamp + acc.cal.correlation_window_ms → False) ∧
      correlateShot impacts acc shot = acc) ∧
    (∀ i imp, bestCandidateAux acc.cal shot impacts 0 acc.used none = some (i, imp) →
      (i ∉ acc.used ∧ impacts.get? i = some imp ∧
        shot.timestamp ≤ imp.timestamp ∧
        imp.timestamp ≤ shot.timestamp + acc.cal.correlation_window_ms) ∧
      (∀ k imp', impacts.get? k = some imp' → k ∉ acc.used →
        shot.timestamp ≤ imp'.timestamp →
        imp'.timestamp ≤ shot.timestamp + acc.cal.correlation_window_ms →
        |(imp.timestamp - shot.timestamp) - acc.cal.expected_delay_ms|
          ≤ |(imp'.timestamp - shot.timestamp) - acc.cal.expected_delay_ms|) ∧
      ((0 ≤ imp.timestamp - shot.timestamp ∧
          imp.timestamp - shot.timestamp ≤ acc.cal.correlation_window_ms ∧
          acc.cal.minimum_magnitude ≤ imp.magnitude ∧
          |(imp.timestamp - shot.timestamp) - acc.cal.expected_delay_ms|
            ≤ acc.cal.delay_tolerance_ms) →
        correlateShot impacts acc shot =
          { used := acc.used ++ [i]
            newPairs := acc.newPairs ++
              [{ shot := shot, impact := imp,
                 delay_ms := imp.timestamp - shot.timestamp,
                 confidence := calculate_confidence acc.cal
                   (imp.timestamp - shot.timestamp) }]
            cal := (update_calibration acc.cal acc.recentDelays
              (imp.timestamp - shot.timestamp)).1
            recentDelays := (update_calibration acc.cal acc.recentDelays
              (imp.timestamp - shot.timestamp)).2 }) ∧
      (¬ (0 ≤ imp.timestamp - shot.timestamp ∧
          imp.timestamp - shot.timestamp ≤ acc.cal.correlation_window_ms ∧
          acc.cal.minimum_magnitude ≤ imp.magnitude ∧
          |(imp.timestamp - shot.timestamp) - acc.cal.expected_delay_ms|
            ≤ acc.cal.delay_tolerance_ms) →
        correlateShot impacts acc shot = acc)) := by
  constructor
  · intro hbc
    have hn := bestCandidateAux_none acc.cal shot impacts 0 acc.used none hbc
    constructor
    · intro k imp hget hku hlo hhi
      exact hn.2 k imp hget (by simpa using hku) hlo hhi
    · simp only [correlateShot, hbc]
  · intro i imp hbc
    have hs := bestCandidateAux_sound acc.cal shot impacts 0 acc.used none i imp hbc
    rcases hs with hs | hs
    · cases hs
    · obtain ⟨hu, _, hget, hlo, hhi⟩ := hs
      rw [Nat.sub_zero] at hget
      have hmin := bestCandidateAux_min acc.cal shot impacts 0 acc.used none i imp hbc
      refine ⟨⟨hu, hget, hlo, hhi⟩, ?_, ?_, ?_⟩
      · intro k imp' hget' hku hlo' hhi'
        exact hmin.2 k imp' hget' (by simpa using hku) hlo' hhi'
      · intro hcond
        have hv : (CorrelatedPair.mk shot imp (imp.timestamp - shot.timestamp)
            (calculate_confidence acc.cal (imp.timestamp - shot.timestamp))).is_valid
              acc.cal = true := by
          simp only [CorrelatedPair.is_valid]
          exact decide_eq_true_eq.mpr hcond
        simp only [correlateShot, hbc]
        rw [if_pos hv]
      · intro hcond
        have hv : ¬ (CorrelatedPair.mk shot imp (imp.timestamp - shot.timestamp)
            (calculate_confidence acc.cal (imp.timestamp - shot.timestamp))).is_valid
              acc.cal = true := by
          simp only [CorrelatedPair.is_valid]
          intro hc
          exact hcond (decide_eq_true_eq.mp hc)
        simp only [correlateShot, hbc]
        rw [if_neg hv]

/-- Demo calibration matching the spec's worked example: expected delay
100 ms, window 1000 ms, tolerance 50 ms. -/
def corrDemoCal : TimingCalibration :=
  { expected_delay_ms := 100, correlation_window_ms := 1000,
    delay_tolerance_ms := 50, minimum_magnitude := 150,
    learning_rate := 1/10, sample_count := 6 }

/-- Demo shot at t = 0. -/
def corrDemoShot : ShotEvent := ⟨0, 1, "Timer"⟩

/-- Demo impact at t = 120 ms with sufficient magnitude. -/
def corrDemoImpact : ImpactEvent := ⟨120, 200, "Sensor", 200⟩

/-- Loop state at the start of a correlation pass under the demo
calibration. -/
def corrDemoAcc : CorrAcc :=
  { used := [], newPairs := [], cal := corrDemoCal, recentDelays := [] }

/-- Witness for `correlator_shot_matching`: the demo shot and impact
correlate into one pair with delay 120 ms and confidence 4/5 (in [0.5, 1]). -/
theorem correlator_shot_matching_witness :
    (correlateShot [corrDemoImpact] corrDemoAcc corrDemoShot).newPairs
      = [{ shot := corrDemoShot, impact := corrDemoImpact, delay_ms := 120,
           confidence := 4/5 }] := by
  have h := (correlator_shot_matching [corrDemoImpact] corrDemoAcc corrDemoShot).2
    0 corrDemoImpact (by decide)
  have hr := h.2.2.1 (by decide)
  rw [hr]
  norm_num [corrDemoAcc, corrDemoShot, corrDemoImpact, corrDemoCal,
    calculate_confidence]

end TinTown
